import Mathlib

/-!
Verification of the bot-performance-analyzer classification-and-reconciliation
pipeline.  The TypeScript sources (`clusteringService`, the staged
`analyzeWithBatching` pipeline, `withRetry`, `safeJsonParse`,
`mergeRecommendations`, `processBucket`) are shallowly embedded below:
JavaScript numbers are modelled as rationals, JS `Map`/`Record` objects as
association lists or update functions, `undefined`-able fields as `Option`,
the stable `Array.prototype.sort` as a structural stable sort, and the fallible
LLM / JSON.parse boundary as `Except` / `Option`-valued parameters.
-/

namespace BotAnalyzer

set_option maxRecDepth 4000

/-- One transcript record (fields of the `ConversationRow` interface that the
classification core reads or writes; presentation-only fields are omitted).
`BUCKET`/`BUCKET_LABEL`/`ISSUE_CATEGORY` are optional in TS and start absent. -/
structure ConversationRow where
  TOPIC : String
  USER_QUERY : String
  RESOLUTION_STATUS : String
  USER_SENTIMENT : String
  RESOLUTION_STATUS_REASONING : String := ""
  BUCKET : Option String := none
  BUCKET_LABEL : Option String := none
  APPROVAL_STATUS : String := ""
  ISSUE_CATEGORY : Option String := none
  deriving Repr, DecidableEq

instance : Inhabited ConversationRow :=
  ⟨{ TOPIC := "", USER_QUERY := "", RESOLUTION_STATUS := "", USER_SENTIMENT := "" }⟩

instance : Inhabited Rat := ⟨0⟩

/-! JavaScript string methods, implemented on the character list of the
string so that every definition is structurally recursive (and hence
evaluable inside the kernel). -/

/-- JS `s.toLowerCase()`. -/
def jsToLower (s : String) : String := ⟨s.data.map Char.toLower⟩

/-- JS `s.trim()`: strip whitespace from both ends. -/
def jsTrim (s : String) : String :=
  ⟨((s.data.dropWhile Char.isWhitespace).reverse.dropWhile Char.isWhitespace).reverse⟩

/-- Split a character list at every separator character (separators are
consumed; empty pieces are kept, as with JS `String.prototype.split`). -/
def splitChars (p : Char → Bool) : List Char → List Char → List String
  | [], acc => [⟨acc.reverse⟩]
  | c :: cs, acc =>
    if p c then ⟨acc.reverse⟩ :: splitChars p cs [] else splitChars p cs (c :: acc)

/-- JS `s.split(sep)` for a single-character / character-class separator. -/
def jsSplit (s : String) (p : Char → Bool) : List String := splitChars p s.data []

/-- JS `arr.join(' ')`. -/
def joinWithSpace (l : List String) : String :=
  ⟨((l.map (·.data)).intersperse [' ']).flatten⟩

/-- `chars starts with pat` on character lists (helper for substring tests). -/
def charsStartWith : List Char → List Char → Bool
  | [], _ => true
  | _ :: _, [] => false
  | p :: ps, c :: cs => p == c && charsStartWith ps cs

/-- `l contains pat as a contiguous run` on character lists. -/
def charsContain : List Char → List Char → Bool
  | l, pat =>
    match l with
    | [] => pat.isEmpty
    | _ :: rest => charsStartWith pat l || charsContain rest pat

/-- JavaScript `s.includes(pat)`. -/
def strIncludes (s pat : String) : Bool := charsContain s.data pat.data

/-- `replaceChars fuel l pat rep`: replace every occurrence of `pat` in `l`
by `rep`, scanning left to right (fuel = length of `l` suffices since `pat`
is non-empty at every call site). -/
def replaceChars : Nat → List Char → List Char → List Char → List Char
  | 0, l, _, _ => l
  | _ + 1, [], _, _ => []
  | fuel + 1, c :: rest, pat, rep =>
    if pat ≠ [] && charsStartWith pat (c :: rest) then
      rep ++ replaceChars fuel ((c :: rest).drop pat.length) pat rep
    else c :: replaceChars fuel rest pat rep

/-- JS `s.replace(/pat/g, rep)` for a literal pattern. -/
def jsReplace (s pat rep : String) : String :=
  ⟨replaceChars s.data.length s.data pat.data rep.data⟩

/-- `(row.TOPIC || '').trim().toLowerCase()` — the grouping key used by
`clusteringService`. -/
def keyTrimLower (s : String) : String := jsToLower (jsTrim s)

/-- `(topic || '').toLowerCase().trim()` — the key normalisation used inside
`analyzeWithBatching` (lower-case first, then trim). -/
def keyLowerTrim (s : String) : String := jsTrim (jsToLower s)

/-- `(s || '').toLowerCase().trim()` applied to status / sentiment strings. -/
def statusNorm (s : String) : String := jsTrim (jsToLower s)

/-! JS `Array.prototype.sort(cmp)` is required by the language spec to be a
stable sort; the algorithm is implementation-defined.  It is modelled by a
stable insertion sort (`jsSort le` with `le a b` meaning `cmp(a, b) <= 0`),
which is structurally recursive and so evaluable by the kernel. -/

/-- Insert `x` (a later-arriving element) after every element `y` of the
already-sorted list with `le y x`. -/
def sinsert {α : Type} (le : α → α → Bool) (x : α) : List α → List α
  | [] => [x]
  | y :: ys => if le y x then y :: sinsert le x ys else x :: y :: ys

/-- Stable sort of `l` by the boolean comparison `le`. -/
def jsSort {α : Type} (le : α → α → Bool) (l : List α) : List α :=
  l.foldl (fun acc x => sinsert le x acc) []

/-- JavaScript `v || d` on an optional string (empty string is falsy). -/
def jsOrStr (v : Option String) (d : String) : String :=
  match v with
  | some s => if s = "" then d else s
  | none => d

/-- A JS error object as observed by `withRetry`: a possibly-set numeric
`status`, a possibly-set `response.status`, and a message string. -/
structure JsError where
  status : Option Int := none
  responseStatus : Option Int := none
  message : String := ""
  deriving Repr, DecidableEq

/-- `error.status || error.response?.status` (a `0` status is falsy). -/
def jsOrStatus (e : JsError) : Option Int :=
  match e.status with
  | some s => if s ≠ 0 then some s else e.responseStatus
  | none => e.responseStatus

/-- The retry predicate of `withRetry`:
`status === 429 || (status >= 500 && status < 600) ||
 message.includes('Rate limit') || message.includes('quota')`. -/
def isTransientError (e : JsError) : Bool :=
  let st := jsOrStatus e
  (st == some 429) ||
  (match st with
   | some s => decide (500 ≤ s) && decide (s < 600)
   | none => false) ||
  strIncludes e.message "Rate limit" || strIncludes e.message "quota"

/-- `withRetry` from the staged pipeline, with the awaited operation modelled
as a map from attempt number to outcome.  Returns the final outcome, the
number of attempts performed, and the list of back-off sleeps (in ms) taken
before each retry. -/
def withRetry {α : Type} (op : Nat → Except JsError α) :
    Nat → Nat → Nat → Except JsError α × Nat × List Nat
  | retries, delayMs, attempt =>
    match op attempt with
    | .ok v => (.ok v, 1, [])
    | .error e =>
      match retries with
      | 0 => (.error e, 1, [])
      | r + 1 =>
        if isTransientError e then
          let rest := withRetry op r (delayMs * 2) (attempt + 1)
          (rest.1, rest.2.1 + 1, delayMs :: rest.2.2)
        else
          (.error e, 1, [])

instance {ε α : Type} [DecidableEq ε] [DecidableEq α] : DecidableEq (Except ε α) :=
  fun a b =>
    match a, b with
    | .ok v, .ok v' =>
      if h : v = v' then isTrue (by rw [h]) else isFalse (by intro hh; cases hh; exact h rfl)
    | .error e, .error e' =>
      if h : e = e' then isTrue (by rw [h]) else isFalse (by intro hh; cases hh; exact h rfl)
    | .ok _, .error _ => isFalse (by intro h; cases h)
    | .error _, .ok _ => isFalse (by intro h; cases h)

/-- `text.replace(/```json/g, '').replace(/```/g, '').trim()`. -/
def stripFences (text : String) : String :=
  jsTrim (jsReplace (jsReplace text "```json" "") "```" "")

/-- `safeJsonParse` with `JSON.parse` (an external JS builtin that either
returns a value or throws) modelled as an `Option`-valued decoder. -/
def safeJsonParse {T : Type} (decode : String → Option T)
    (text : String) (defaultValue : T) : T :=
  if jsTrim text = "" then defaultValue
  else
    match decode (stripFences text) with
    | some v => v
    | none => defaultValue

/-- A recommendation object as produced by an LLM stage (untrusted JSON):
`indices` may be absent and may contain arbitrary JS numbers (rationals),
`goalAlignmentScore` and `count` may be absent. -/
structure BucketRecommendation where
  topic : String
  indices : Option (List ℚ) := none
  count : Option ℚ := none
  problemStatement : String := ""
  recommendation : String := ""
  rootCause : String := ""
  goalAlignmentScore : Option ℚ := none
  strategicPriority : String := ""
  kpiToWatch : String := ""
  examples : List String := []
  deriving Repr, DecidableEq

/-- `(rec.goalAlignmentScore || 0)`. -/
def recScore (r : BucketRecommendation) : ℚ := r.goalAlignmentScore.getD 0

/-- `(rec.topic || '').toLowerCase().trim()` — the merge key. -/
def recKey (r : BucketRecommendation) : String := keyLowerTrim r.topic

/-- `Map.prototype.set`: replace the value at an existing key in place,
otherwise append the new entry (JS `Map`s iterate in insertion order). -/
def assocSet {β : Type} : List (String × β) → String → β → List (String × β)
  | [], k, v => [(k, v)]
  | (k', v') :: rest, k, v =>
    if k' = k then (k, v) :: rest else (k', v') :: assocSet rest k v

/-- `map.get(key)` on the association-list model of a JS `Map`. -/
def assocGet {β : Type} (m : List (String × β)) (k : String) : Option β :=
  (m.find? (fun p => p.1 == k)).map (·.2)

/-- One iteration of the merge loop of `mergeRecommendations`:
`if (!existing || rec.goalAlignmentScore > existing.goalAlignmentScore) map.set(key, rec)`. -/
def mergeStep (m : List (String × BucketRecommendation)) (rec : BucketRecommendation) :
    List (String × BucketRecommendation) :=
  match assocGet m (recKey rec) with
  | none => assocSet m (recKey rec) rec
  | some existing =>
    if recScore existing < recScore rec then assocSet m (recKey rec) rec else m

/-- `mergeRecommendations(strategic, detail)`: deduplicate `strategic ++ detail`
by normalised topic in a `Map`, then sort the surviving values descending by
goal-alignment score (stable JS sort). -/
def mergeRecommendations (strategic detail : List BucketRecommendation) :
    List BucketRecommendation :=
  let m := (strategic ++ detail).foldl mergeStep []
  jsSort (fun a b => decide (recScore b ≤ recScore a)) (m.map (·.2))

/-- The index filter of `processBucket`:
`rec.indices.filter(idx => Number.isInteger(idx) && idx >= 0 && idx < rowCount)`. -/
def filterIndices (rowCount : Nat) (l : List ℚ) : List ℚ :=
  l.filter (fun q => q.den == 1 && decide (0 ≤ q) && decide (q < (rowCount : ℚ)))

/-- The filtered indices as natural numbers (all entries are integers `≥ 0`). -/
def natIndices (l : List ℚ) : List Nat := l.map (fun q => q.num.toNat)

/-- `categorizedRows[idx].BUCKET = bucketId; categorizedRows[idx].BUCKET_LABEL = label`. -/
def setRowBucket (rows : List ConversationRow) (idx : Nat) (b lbl : String) :
    List ConversationRow :=
  rows.set idx { rows.getD idx default with BUCKET := some b, BUCKET_LABEL := some lbl }

/-- Overwrite the rows referenced by one recommendation's (filtered) indices. -/
def applyRec (rows : List ConversationRow) (rec : BucketRecommendation)
    (b lbl : String) : List ConversationRow :=
  match rec.indices with
  | some l =>
    (natIndices (filterIndices rows.length l)).foldl
      (fun rs i => setRowBucket rs i b lbl) rows
  | none => rows

/-- The in-place mutation `processBucket` performs on one recommendation:
filter its indices to valid row positions and rewrite its `count`. -/
def updRec (rowCount : Nat) (rec : BucketRecommendation) : BucketRecommendation :=
  match rec.indices with
  | some l =>
    { rec with indices := some (filterIndices rowCount l),
               count := some ((filterIndices rowCount l).length : ℚ) }
  | none => rec

/-- `processBucket(recs, categorizedRows, bucketId, label)` of the staged
pipeline: per recommendation, filter indices / rewrite count / overwrite the
referenced rows, then return the (mutated) recommendations sorted descending
by goal-alignment score, together with the updated rows. -/
def processBucket (recs : List BucketRecommendation) (rows : List ConversationRow)
    (bucketId label : String) :
    List BucketRecommendation × List ConversationRow :=
  let rows' := recs.foldl (fun rs rec => applyRec rs rec bucketId label) rows
  let recs' := jsSort (fun a b => decide (recScore b ≤ recScore a))
    (recs.map (updRec rows.length))
  (recs', rows')

/-- One entry of the `groupMap` built by `buildClusterSummaries`: the
normalised key, the original (trimmed) topic of the first row seen, and the
row indices collected so far. -/
structure TopicGroup where
  key : String
  originalTopic : String
  indices : List Nat
  deriving Repr, DecidableEq

/-- One `groupMap` update of `buildClusterSummaries`: append the index to the
existing group for this key, or append a fresh group (JS `Map`s keep
insertion order; a fresh key goes to the end). -/
def insertIdx : List TopicGroup → String → String → Nat → List TopicGroup
  | [], k, ot, i => [⟨k, ot, [i]⟩]
  | g :: rest, k, ot, i =>
    if g.key = k then ⟨g.key, g.originalTopic, g.indices ++ [i]⟩ :: rest
    else g :: insertIdx rest k ot i

/-- The `rows.forEach((row, idx) => ...)` grouping loop, with the running
index made explicit. -/
def groupAux : List ConversationRow → Nat → List TopicGroup → List TopicGroup
  | [], _, gs => gs
  | r :: rest, i, gs =>
    groupAux rest (i + 1) (insertIdx gs (keyTrimLower r.TOPIC) (jsTrim r.TOPIC) i)

/-- The grouping pass of `buildClusterSummaries`. -/
def groupByTopic (rows : List ConversationRow) : List TopicGroup :=
  groupAux rows 0 []

/-- Lookup of a group's collected indices by key (`groupMap.get(key)`). -/
def groupGet (gs : List TopicGroup) (k : String) : List Nat :=
  match gs.find? (fun g => g.key == k) with
  | some g => g.indices
  | none => []

/-- `ClusterSummary` (rates as exact rationals in place of JS doubles). -/
structure ClusterSummary where
  topic : String
  total : Nat
  unresolved : Nat
  resolution_attempted : Nat
  partially_resolved : Nat
  user_drop_off : Nat
  positive_sentiment : Nat
  neutral_sentiment : Nat
  negative_sentiment : Nat
  failure_rate : ℚ
  negative_rate : ℚ
  sample_queries : List String
  row_indices : List Nat
  deriving Repr, DecidableEq

instance : Inhabited ClusterSummary :=
  ⟨⟨"", 0, 0, 0, 0, 0, 0, 0, 0, 0, 0, [], []⟩⟩

/-- The per-group summary computation of `buildClusterSummaries`. -/
def summarizeGroup (rows : List ConversationRow) (g : TopicGroup) : ClusterSummary :=
  let groupRows := g.indices.map (fun i => rows.getD i default)
  let total := groupRows.length
  let unresolved := groupRows.countP (fun r => statusNorm r.RESOLUTION_STATUS == "unresolved")
  let resolution_attempted :=
    groupRows.countP (fun r => statusNorm r.RESOLUTION_STATUS == "resolution_attempted")
  let partially_resolved :=
    groupRows.countP (fun r => statusNorm r.RESOLUTION_STATUS == "partially_resolved")
  let user_drop_off :=
    groupRows.countP (fun r => statusNorm r.RESOLUTION_STATUS == "user_drop_off")
  let positive_sentiment :=
    groupRows.countP (fun r => statusNorm r.USER_SENTIMENT == "positive")
  let neutral_sentiment :=
    groupRows.countP (fun r => statusNorm r.USER_SENTIMENT == "neutral")
  let negative_sentiment :=
    groupRows.countP (fun r => statusNorm r.USER_SENTIMENT == "negative")
  let unresolvedRows :=
    groupRows.filter (fun r => statusNorm r.RESOLUTION_STATUS == "unresolved")
  let sampleSource := if 0 < unresolvedRows.length then unresolvedRows else groupRows
  { topic := g.originalTopic
    total := total
    unresolved := unresolved
    resolution_attempted := resolution_attempted
    partially_resolved := partially_resolved
    user_drop_off := user_drop_off
    positive_sentiment := positive_sentiment
    neutral_sentiment := neutral_sentiment
    negative_sentiment := negative_sentiment
    failure_rate := if 0 < total then mkRat (unresolved + user_drop_off) total else 0
    negative_rate := if 0 < total then mkRat negative_sentiment total else 0
    sample_queries := ((sampleSource.take 3).map (·.USER_QUERY)).filter (· ≠ "")
    row_indices := g.indices }

/-- `buildClusterSummaries(rows)`: group by normalised topic, summarise each
group, and sort the summaries descending by failure rate (stable JS sort). -/
def buildClusterSummaries (rows : List ConversationRow) : List ClusterSummary :=
  jsSort (fun a b => decide (b.failure_rate ≤ a.failure_rate))
    ((groupByTopic rows).map (summarizeGroup rows))

/-- The qualification predicates of `getFailureRows`. -/
def isUnresolvedRow (r : ConversationRow) : Bool :=
  statusNorm r.RESOLUTION_STATUS == "unresolved"

def isDropOffRow (r : ConversationRow) : Bool :=
  statusNorm r.RESOLUTION_STATUS == "user_drop_off"

def isNegativeRow (r : ConversationRow) : Bool :=
  statusNorm r.USER_SENTIMENT == "negative"

/-- `_sortKey`: `negative = 0, unresolved = 1, user_drop_off = 2`
(lower key = higher priority). -/
def failureSortKey (r : ConversationRow) : Nat :=
  if isNegativeRow r then 0 else if isUnresolvedRow r then 1 else 2

/-- An intermediate entry of `getFailureRows` (`row`, `originalIndex`,
`_sortKey`). -/
structure FailureEntry where
  row : ConversationRow
  originalIndex : Nat
  sortKey : Nat
  deriving Repr, DecidableEq

/-- `getFailureRows(rows, topN)`: keep rows that are negative, unresolved or
dropped-off (each original index once), stably sort by priority key, truncate
to `topN`, and drop the internal key. -/
def getFailureRows (rows : List ConversationRow) (topN : Nat) :
    List (ConversationRow × Nat) :=
  let qualified : List FailureEntry :=
    (List.enumFrom 0 rows).filterMap (fun p =>
      if isNegativeRow p.2 || isUnresolvedRow p.2 || isDropOffRow p.2 then
        some ⟨p.2, p.1, failureSortKey p.2⟩
      else none)
  let sorted := jsSort (fun a b => decide (a.sortKey ≤ b.sortKey)) qualified
  (sorted.take topN).map (fun e => (e.row, e.originalIndex))

/-- `assignBucketsByTopic(rows, topicToBucket, topicToLabel)`: every row gets
the bucket/label its normalised topic maps to, defaulting to
`'0'` / `'Resolved / Out of Scope'`. -/
def assignBucketsByTopic (rows : List ConversationRow)
    (topicToBucket topicToLabel : String → Option String) : List ConversationRow :=
  rows.map (fun row =>
    let key := keyTrimLower row.TOPIC
    { row with
        BUCKET := some ((topicToBucket key).getD "0")
        BUCKET_LABEL := some ((topicToLabel key).getD "Resolved / Out of Scope")
        APPROVAL_STATUS := "Pending" })

/-- One element of the Stage-A `topic_assignments` array (untrusted JSON:
every field may be absent). -/
structure TopicAssignment where
  topic : String := ""
  bucket : Option String := none
  bucket_label : Option String := none
  label : Option String := none
  issue_category : Option String := none
  deriving Repr, DecidableEq

/-- JS truthiness of a possibly-undefined string. -/
def optTruthy : Option String → Bool
  | some s => s ≠ ""
  | none => false

/-- `record[key] = value` on the function model of a JS `Record`. -/
def updateMap (m : String → Option String) (k v : String) : String → Option String :=
  fun x => if x = k then some v else m x

/-- The `assignments.forEach` loop of `analyzeWithBatching` that builds
`topicToBucket`, `topicToLabel` and (from the AI's explicit `issue_category`
field) `topicToIssueCategory`. -/
def buildMaps (assignments : List TopicAssignment) :
    (String → Option String) × (String → Option String) × (String → Option String) :=
  assignments.foldl
    (fun maps a =>
      let key := keyLowerTrim a.topic
      ( updateMap maps.1 key (jsOrStr a.bucket "0"),
        updateMap maps.2.1 key (jsOrStr a.bucket_label (jsOrStr a.label "Resolved / Out of Scope")),
        if optTruthy a.issue_category && a.bucket != some "0" then
          updateMap maps.2.2 key (a.issue_category.getD "")
        else maps.2.2 ))
    (fun _ => none, fun _ => none, fun _ => none)

/-- `categorizedRows[idx]` under a raw (rational) JS index: defined only for
integer indices inside the array. -/
def rowAt (rows : List ConversationRow) (q : ℚ) : Option ConversationRow :=
  if q.den == 1 && decide (0 ≤ q) && decide (q < (rows.length : ℚ)) then
    some (rows.getD q.num.toNat default)
  else none

/-- `(rows[idx]?.TOPIC || '').toLowerCase().trim()`. -/
def rowTopicAt (rows : List ConversationRow) (q : ℚ) : String :=
  keyLowerTrim (((rowAt rows q).map (·.TOPIC)).getD "")

/-- The `Set` of granular (normalised, non-empty) topics covered by one
recommendation's explicit indices. -/
def granularCovered (rows : List ConversationRow) (rec : BucketRecommendation) :
    List String :=
  match rec.indices with
  | some l =>
    l.foldl
      (fun acc q =>
        let t := rowTopicAt rows q
        if t ≠ "" then (if acc.contains t then acc else acc ++ [t]) else acc)
      []
  | none => []

/-- `split(/[\s_\-,]+/)` separator characters. -/
def isSepChar (c : Char) : Bool := c.isWhitespace || c == '_' || c == '-' || c == ','

/-- Tokenisation used by the keyword-similarity tier: split on
whitespace/underscore/hyphen/comma, keep tokens of length `> 2`. -/
def tokenize (s : String) : List String :=
  (jsSplit s isSepChar).filter (fun w => 2 < w.length)

/-- `new Set(list)` (JS sets keep first-insertion order). -/
def jsSetOfList (l : List String) : List String :=
  l.foldl (fun acc s => if acc.contains s then acc else acc ++ [s]) []

/-- `recLower.split(' ').slice(0, 2).join(' ')`. -/
def firstTwoWords (s : String) : String :=
  joinWithSpace ((jsSplit s (· == ' ')).take 2)

/-- The keyword-similarity score between a cluster key and one
recommendation topic (tier 2 of the issue-category heuristic). -/
def simScore (key : String) (clusterWords : List String) (recTopic : String) : Nat :=
  let recLower := jsToLower recTopic
  let recWords := tokenize recLower
  2 * recWords.countP (fun w => clusterWords.contains w) +
    (if strIncludes recLower key then 3
     else if strIncludes key (firstTwoWords recLower) then 2 else 0) +
    clusterWords.countP (fun cw => strIncludes recLower cw)

/-- `buildIssueCategoryMap(bucketRecs, bucketId, rows)` from the staged
pipeline: for every Stage-A cluster topic assigned to this bucket and not
already mapped, try (1) index-overlap evidence, (2) keyword similarity,
(3) the bucket's top-scored recommendation. -/
def buildIssueCategoryMap (assignments : List TopicAssignment)
    (bucketRecs : List BucketRecommendation) (bucketId : String)
    (rows : List ConversationRow) (tic : String → Option String) :
    String → Option String :=
  match bucketRecs with
  | [] => tic
  | r0 :: _ =>
    let granMap : List (String × List String) :=
      bucketRecs.foldl (fun m rec => assocSet m rec.topic (granularCovered rows rec)) []
    assignments.foldl
      (fun tic a =>
        if a.bucket != some bucketId then tic
        else
          let key := keyLowerTrim a.topic
          if key = "" then tic
          else if optTruthy (tic key) then tic
          else
            match granMap.find? (fun p => p.2.contains key) with
            | some p => updateMap tic key p.1
            | none =>
              let clusterWords := jsSetOfList (tokenize key)
              let best :=
                bucketRecs.foldl
                  (fun bs rec =>
                    let sc : Int := simScore key clusterWords rec.topic
                    if bs.2 < sc then (rec.topic, sc) else bs)
                  (("", (-1 : Int)))
              if best.1 ≠ "" && decide (0 < best.2) then updateMap tic key best.1
              else updateMap tic key r0.topic)
      tic

/-- The per-row body of the final `categorizedRows.forEach` loop stamping
`ISSUE_CATEGORY` (the source's local `key` and `bktRecs` consts are inlined). -/
def stampRow (tic : String → Option String) (b1 b2 b3 : List BucketRecommendation)
    (row : ConversationRow) : ConversationRow :=
  if optTruthy row.BUCKET && row.BUCKET != some "0" then
    if optTruthy (tic (keyLowerTrim row.TOPIC)) then
      { row with ISSUE_CATEGORY := tic (keyLowerTrim row.TOPIC) }
    else
      match (if row.BUCKET == some "1" then b1
             else if row.BUCKET == some "2" then b2 else b3) with
      | [] => row
      | r :: _ => { row with ISSUE_CATEGORY := some r.topic }
  else row

/-- The final `categorizedRows.forEach` loop stamping `ISSUE_CATEGORY` onto
every row in a truthy, non-`'0'` bucket. -/
def stampIssueCategories (rows : List ConversationRow)
    (tic : String → Option String) (b1 b2 b3 : List BucketRecommendation) :
    List ConversationRow :=
  rows.map (stampRow tic b1 b2 b3)

/-- The parsed Stage-A (strategic) response shape, with the empty defaults
`safeJsonParse` falls back to. -/
structure StrategicParsed where
  topic_assignments : List TopicAssignment := []
  bucket1 : List BucketRecommendation := []
  bucket2 : List BucketRecommendation := []
  bucket3 : List BucketRecommendation := []
  deriving Repr, DecidableEq

/-- The parsed Stage-B (detail) response shape. -/
structure DetailParsed where
  bucket1 : List BucketRecommendation := []
  bucket2 : List BucketRecommendation := []
  bucket3 : List BucketRecommendation := []
  deriving Repr, DecidableEq

/-- The reconciliation portion of `analyzeWithBatching`'s output. -/
structure PipelineOutput where
  categorizedRows : List ConversationRow
  bucket1 : List BucketRecommendation
  bucket2 : List BucketRecommendation
  bucket3 : List BucketRecommendation
  issueMap : String → Option String

/-- The merging/reconciliation core of `analyzeWithBatching` (Stage 4
onward): topic-map assignment, the six index-override `processBucket`
passes (strategic then detail, buckets 1-2-3 in order), per-bucket merge,
issue-category resolution and stamping. -/
def pipelineCore (csvData : List ConversationRow) (sp : StrategicParsed)
    (dp : DetailParsed) : PipelineOutput :=
  let maps := buildMaps sp.topic_assignments
  let rows0 := assignBucketsByTopic csvData maps.1 maps.2.1
  let pb1 := processBucket sp.bucket1 rows0 "1" "Service Expansion (New Agent)"
  let pb2 := processBucket sp.bucket2 pb1.2 "2" "System Optimization (Logic Update)"
  let pb3 := processBucket sp.bucket3 pb2.2 "3" "Information Gaps (KB Update)"
  let db1 := processBucket dp.bucket1 pb3.2 "1" "Service Expansion (New Agent)"
  let db2 := processBucket dp.bucket2 db1.2 "2" "System Optimization (Logic Update)"
  let db3 := processBucket dp.bucket3 db2.2 "3" "Information Gaps (KB Update)"
  let rows6 := db3.2
  let b1 := mergeRecommendations pb1.1 db1.1
  let b2 := mergeRecommendations pb2.1 db2.1
  let b3 := mergeRecommendations pb3.1 db3.1
  let tic1 := buildIssueCategoryMap sp.topic_assignments b1 "1" rows6 maps.2.2
  let tic2 := buildIssueCategoryMap sp.topic_assignments b2 "2" rows6 tic1
  let tic3 := buildIssueCategoryMap sp.topic_assignments b3 "3" rows6 tic2
  { categorizedRows := stampIssueCategories rows6 tic3 b1 b2 b3
    bucket1 := b1, bucket2 := b2, bucket3 := b3, issueMap := tic3 }

/-- The slice of `AnalysisResult` the staged pipeline returns. -/
structure AnalysisResultM where
  categorizedRows : List ConversationRow
  bucket1 : List BucketRecommendation
  bucket2 : List BucketRecommendation
  bucket3 : List BucketRecommendation
  clusterSummaries : List ClusterSummary
  totalRowsProcessed : Nat
  deriving Repr, DecidableEq

/-- The slice of the run log relevant to error propagation. -/
structure RunLog where
  errors : List String
  strategicSuccess : Bool
  detailSuccess : Bool
  deriving Repr, DecidableEq

/-- `analyzeWithBatching`, with each LLM call's outcome (after `withRetry`)
modelled as an `Except` input and `JSON.parse` as an `Option`-valued decoder.
Each stage call sits in its own `try/catch`: a failed stage contributes an
empty raw response plus a log entry, and the pipeline continues. -/
def analyzeWithBatchingM (csvData : List ConversationRow)
    (stageA stageB : Except String String)
    (decodeStrategic : String → Option StrategicParsed)
    (decodeDetail : String → Option DetailParsed) : AnalysisResultM × RunLog :=
  let allClusters := buildClusterSummaries csvData
  let top20Clusters := allClusters.take 20
  let stageARes :=
    match stageA with
    | .ok s => (s, ([] : List String), true)
    | .error e => ("", ["Stage 2 (Strategic) API Error: " ++ e], false)
  let strategicParsed := safeJsonParse decodeStrategic stageARes.1 {}
  let stageBRes :=
    match stageB with
    | .ok s => (s, ([] : List String), true)
    | .error e => ("", ["Stage 3 (Detail) API Error: " ++ e], false)
  let detailParsed := safeJsonParse decodeDetail stageBRes.1 {}
  let out := pipelineCore csvData strategicParsed detailParsed
  ( { categorizedRows := out.categorizedRows
      bucket1 := out.bucket1, bucket2 := out.bucket2, bucket3 := out.bucket3
      clusterSummaries := top20Clusters
      totalRowsProcessed := csvData.length },
    { errors := stageARes.2.1 ++ stageBRes.2.1
      strategicSuccess := stageARes.2.2
      detailSuccess := stageBRes.2.2 } )

/-- The running "best so far" of the merge loop: fold the candidates with the
same normalised topic in arrival order, keeping the incumbent unless a strictly
higher goal-alignment score arrives. -/
def combineW : Option BucketRecommendation → List BucketRecommendation →
    Option BucketRecommendation
  | w, [] => w
  | none, h :: t => combineW (some h) t
  | some w, h :: t => combineW (some (if recScore w < recScore h then h else w)) t

/-- The survivor among a list of same-key candidates (in arrival order). -/
def pickWinner (l : List BucketRecommendation) : Option BucketRecommendation :=
  combineW none l

/-- `claimedBy recs n i`: row `i` is referenced by the (valid-filtered)
indices of some recommendation in `recs`, for row count `n`. -/
def claimedBy (recs : List BucketRecommendation) (n : Nat) (i : Nat) : Bool :=
  recs.any (fun rec =>
    match rec.indices with
    | some l => (natIndices (filterIndices n l)).contains i
    | none => false)

/-- The effect of one index override on a row: only `BUCKET` and
`BUCKET_LABEL` are written. -/
def markBL (b lbl : String) (r : ConversationRow) : ConversationRow :=
  { r with BUCKET := some b, BUCKET_LABEL := some lbl }

/-- The row-qualification predicate of `getFailureRows`. -/
def failureQualifies (r : ConversationRow) : Bool :=
  isNegativeRow r || isUnresolvedRow r || isDropOffRow r

/-! Concrete fixtures used by witnesses and counterexamples. -/

/-- A row with negative sentiment and unresolved status. -/
def wRowNeg : ConversationRow :=
  { TOPIC := "Login Issue", USER_QUERY := "cannot log in",
    RESOLUTION_STATUS := "Unresolved", USER_SENTIMENT := "Negative" }

/-- A resolved, positive-sentiment row. -/
def wRowPos : ConversationRow :=
  { TOPIC := "refund", USER_QUERY := "refund status",
    RESOLUTION_STATUS := "resolved", USER_SENTIMENT := "positive" }

/-- A dropped-off, neutral row. -/
def wRowDrop : ConversationRow :=
  { TOPIC := "refund", USER_QUERY := "where is my money",
    RESOLUTION_STATUS := "user_drop_off", USER_SENTIMENT := "neutral" }

/-- An unresolved, neutral row (topic differing from `wRowNeg` only in case
and surrounding whitespace). -/
def wRowUnres : ConversationRow :=
  { TOPIC := " login issue ", USER_QUERY := "login broken",
    RESOLUTION_STATUS := "unresolved", USER_SENTIMENT := "neutral" }

/-- The four-row input used by several witnesses. -/
def wRows : List ConversationRow := [wRowPos, wRowNeg, wRowDrop, wRowUnres]

/-- Stage-A recommendation fixture: topic `"X"`, score 5. -/
def cRecA : BucketRecommendation :=
  { topic := "X", goalAlignmentScore := some 5, problemStatement := "from stage A" }

/-- Stage-B recommendation fixture: same normalised topic as `cRecA`, same
score, different payload. -/
def cRecB : BucketRecommendation :=
  { topic := " x", goalAlignmentScore := some 5, problemStatement := "from stage B" }

/-- A recommendation with a hallucinated index `999`, a valid index `2` and a
non-integer index `3/2`. -/
def wRec999 : BucketRecommendation :=
  { topic := "bad indices", indices := some [999, 2, mkRat 3 2],
    goalAlignmentScore := some 7 }

/-- A ten-row dataset. -/
def wRows10 : List ConversationRow := List.replicate 10 wRowPos

/-- Stage-A topic assignment mapping the `login issue` cluster to bucket 2. -/
def wAsg2 : TopicAssignment :=
  { topic := "Login Issue", bucket := some "2", bucket_label := some "Logic" }

/-- A detail (Stage-B) recommendation for bucket 1 claiming row 1 by index. -/
def wDetailRec1 : BucketRecommendation :=
  { topic := "session handling", indices := some [1], goalAlignmentScore := some 9 }

/-- A strategic response fixture: the `login issue` cluster is assigned to
bucket 2, with no recommendation objects at all. -/
def wStrategicNoRecs : StrategicParsed := { topic_assignments := [wAsg2] }

/-- A detail response fixture carrying `wDetailRec1` in bucket 1. -/
def wDetailB1 : DetailParsed := { bucket1 := [wDetailRec1] }

/-! ### Lemmas about the stable sort -/

theorem sinsert_perm {α : Type} {le : α → α → Bool} (x : α) :
    ∀ l : List α, (sinsert le x l).Perm (x :: l)
  | [] => .refl _
  | y :: ys => by
    simp only [sinsert]
    cases h : le y x with
    | true =>
      simpa [h] using ((sinsert_perm x ys).cons y).trans (List.Perm.swap x y ys)
    | false => simp [h]

theorem mem_sinsert {α : Type} {le : α → α → Bool} {a x : α} {l : List α} :
    a ∈ sinsert le x l ↔ a = x ∨ a ∈ l := by
  rw [(sinsert_perm x l).mem_iff]; simp

theorem foldl_sinsert_perm {α : Type} {le : α → α → Bool} :
    ∀ (l acc : List α),
      (l.foldl (fun acc x => sinsert le x acc) acc).Perm (acc ++ l)
  | [], acc => by simp
  | x :: xs, acc => by
    simp only [List.foldl_cons]
    exact ((foldl_sinsert_perm xs _).trans
      ((sinsert_perm x acc).append_right xs)).trans List.perm_middle.symm

theorem jsSort_perm {α : Type} (le : α → α → Bool) (l : List α) :
    (jsSort le l).Perm l := by
  simpa [jsSort] using @foldl_sinsert_perm α le l []

theorem sinsert_pairwise {α : Type} {le : α → α → Bool}
    (htrans : ∀ a b c, le a b = true → le b c = true → le a c = true)
    (htot : ∀ a b, le a b = true ∨ le b a = true) (x : α) :
    ∀ l : List α, l.Pairwise (fun a b => le a b = true) →
      (sinsert le x l).Pairwise (fun a b => le a b = true)
  | [], _ => by simp [sinsert]
  | y :: ys, hp => by
    rw [List.pairwise_cons] at hp
    simp only [sinsert]
    cases h : le y x with
    | true =>
      rw [if_pos rfl, List.pairwise_cons]
      refine ⟨fun z hz => ?_, sinsert_pairwise htrans htot x ys hp.2⟩
      rcases mem_sinsert.1 hz with rfl | hz'
      · exact h
      · exact hp.1 z hz'
    | false =>
      rw [if_neg (by simp), List.pairwise_cons]
      have hxy : le x y = true := by
        rcases htot x y with h' | h'
        · exact h'
        · exact absurd h' (by simp [h])
      refine ⟨fun z hz => ?_, List.pairwise_cons.mpr hp⟩
      rcases List.mem_cons.1 hz with rfl | hz'
      · exact hxy
      · exact htrans x y z hxy (hp.1 z hz')

theorem jsSort_pairwise {α : Type} {le : α → α → Bool}
    (htrans : ∀ a b c, le a b = true → le b c = true → le a c = true)
    (htot : ∀ a b, le a b = true ∨ le b a = true) (l : List α) :
    (jsSort le l).Pairwise (fun a b => le a b = true) := by
  suffices h : ∀ (l acc : List α), acc.Pairwise (fun a b => le a b = true) →
      (l.foldl (fun acc x => sinsert le x acc) acc).Pairwise (fun a b => le a b = true) by
    exact h l [] (by simp)
  intro l
  induction l with
  | nil => intro acc hacc; simpa using hacc
  | cons x xs ih =>
    intro acc hacc
    exact ih _ (sinsert_pairwise htrans htot x acc hacc)

theorem sublist_sinsert {α : Type} {le : α → α → Bool} (x : α) :
    ∀ l : List α, l.Sublist (sinsert le x l)
  | [] => by simp [sinsert]
  | y :: ys => by
    simp only [sinsert]
    cases h : le y x with
    | true => simpa [h] using (sublist_sinsert x ys).cons₂ y
    | false => simp [h]

theorem single_sublist_sinsert {α : Type} {le : α → α → Bool} (x : α) :
    ∀ l : List α, [x].Sublist (sinsert le x l)
  | [] => by simp [sinsert]
  | y :: ys => by
    simp only [sinsert]
    cases h : le y x with
    | true => simpa [h] using (single_sublist_sinsert x ys).cons y
    | false => simp [h]

theorem sinsert_after {α : Type} {le : α → α → Bool}
    (htrans : ∀ a b c, le a b = true → le b c = true → le a c = true)
    {a b : α} (hab : le a b = true) :
    ∀ l : List α, l.Pairwise (fun u v => le u v = true) → a ∈ l →
      [a, b].Sublist (sinsert le b l)
  | [], _, ha => absurd ha (by simp)
  | y :: ys, hp, ha => by
    rw [List.pairwise_cons] at hp
    simp only [sinsert]
    cases h : le y b with
    | true =>
      rw [if_pos rfl]
      rcases List.mem_cons.1 ha with rfl | ha'
      · exact (single_sublist_sinsert b ys).cons₂ a
      · exact (sinsert_after htrans hab ys hp.2 ha').cons y
    | false =>
      rw [if_neg (by simp)]
      rcases List.mem_cons.1 ha with rfl | ha'
      · exact absurd hab (by simp [h])
      · exact absurd (htrans y a b (hp.1 a ha') hab) (by simp [h])

theorem foldl_sinsert_stable {α : Type} {le : α → α → Bool}
    (htrans : ∀ a b c, le a b = true → le b c = true → le a c = true)
    (htot : ∀ a b, le a b = true ∨ le b a = true)
    {a b : α} (hab : le a b = true) :
    ∀ (l acc : List α), acc.Pairwise (fun u v => le u v = true) →
      ([a, b].Sublist acc ∨ (a ∈ acc ∧ b ∈ l) ∨ [a, b].Sublist l) →
      [a, b].Sublist (l.foldl (fun acc x => sinsert le x acc) acc)
  | [], acc, _, hcase => by
    rcases hcase with h | ⟨_, hb⟩ | hsub
    · simpa using h
    · exact absurd hb (by simp)
    · simp at hsub
  | x :: xs, acc, hacc, hcase => by
    simp only [List.foldl_cons]
    have hacc' : (sinsert le x acc).Pairwise (fun u v => le u v = true) :=
      sinsert_pairwise htrans htot x acc hacc
    apply foldl_sinsert_stable htrans htot hab xs _ hacc'
    rcases hcase with h | ⟨ha, hb⟩ | hsub
    · exact Or.inl (h.trans (sublist_sinsert x acc))
    · rcases List.mem_cons.1 hb with rfl | hb'
      · exact Or.inl (sinsert_after htrans hab acc hacc ha)
      · exact Or.inr (Or.inl ⟨mem_sinsert.2 (Or.inr ha), hb'⟩)
    · cases hsub with
      | cons _ h => exact Or.inr (Or.inr h)
      | cons₂ _ h =>
        exact Or.inr (Or.inl ⟨mem_sinsert.2 (Or.inl rfl),
          List.singleton_sublist.1 h⟩)

/-- Stability of the sort: a pair that is already weakly ordered by `le` and
occurs in that order in the input occurs in that order in the output. -/
theorem jsSort_stable {α : Type} {le : α → α → Bool}
    (htrans : ∀ a b c, le a b = true → le b c = true → le a c = true)
    (htot : ∀ a b, le a b = true ∨ le b a = true)
    {a b : α} (hab : le a b = true) {l : List α}
    (hsub : [a, b].Sublist l) : [a, b].Sublist (jsSort le l) :=
  foldl_sinsert_stable htrans htot hab l [] (by simp) (Or.inr (Or.inr hsub))

/-- In a strictly sorted list any two members appearing in relation order
form a pair sublist. -/
theorem pair_sublist_of_pairwise {α : Type} {r : α → α → Prop}
    (hasymm : ∀ u v, r u v → ¬ r v u) {x y : α} :
    ∀ l : List α, l.Pairwise r → x ∈ l → y ∈ l → r x y → [x, y].Sublist l
  | [], _, hx, _, _ => absurd hx (by simp)
  | h :: t, hp, hx, hy, hr => by
    rw [List.pairwise_cons] at hp
    rcases List.mem_cons.1 hx with rfl | hx'
    · rcases List.mem_cons.1 hy with rfl | hy'
      · exact absurd hr (hasymm _ _ hr)
      · exact (List.singleton_sublist.2 hy').cons₂ x
    · rcases List.mem_cons.1 hy with rfl | hy'
      · exact absurd hr (hasymm _ _ (hp.1 x hx'))
      · exact (pair_sublist_of_pairwise hasymm t hp.2 hx' hy' hr).cons h

/-- A duplicate-free list cannot contain a two-element pair as a sublist in
both orders. -/
theorem pair_sublist_antisymm {α : Type} {u v : α} :
    ∀ l : List α, l.Nodup → u ≠ v →
      [u, v].Sublist l → [v, u].Sublist l → False
  | [], _, _, h1, _ => by cases h1
  | h :: t, hnd, hne, h1, h2 => by
    rw [List.nodup_cons] at hnd
    cases h1 with
    | cons _ h1' =>
      cases h2 with
      | cons _ h2' => exact pair_sublist_antisymm t hnd.2 hne h1' h2'
      | cons₂ _ h2' =>
        exact hnd.1 (h1'.subset (by simp))
    | cons₂ _ h1' =>
      cases h2 with
      | cons _ h2' => exact hnd.1 (h2'.subset (by simp))
      | cons₂ _ h2' => exact hne rfl

/-! ### C9: retry policy of `withRetry` -/

theorem withRetry_of_ok {α : Type} {op : Nat → Except JsError α} {v : α}
    {retries delayMs attempt : Nat} (h : op attempt = .ok v) :
    withRetry op retries delayMs attempt = (.ok v, 1, []) := by
  unfold withRetry
  rw [h]

theorem withRetry_zero_error {α : Type} {op : Nat → Except JsError α} {e : JsError}
    {delayMs attempt : Nat} (h : op attempt = .error e) :
    withRetry op 0 delayMs attempt = (.error e, 1, []) := by
  unfold withRetry
  rw [h]

theorem withRetry_fatal {α : Type} {op : Nat → Except JsError α} {e : JsError}
    {retries delayMs attempt : Nat} (h : op attempt = .error e)
    (ht : isTransientError e = false) :
    withRetry op (retries + 1) delayMs attempt = (.error e, 1, []) := by
  unfold withRetry
  rw [h]
  simp [ht]

theorem withRetry_transient {α : Type} {op : Nat → Except JsError α} {e : JsError}
    {retries delayMs attempt : Nat} (h : op attempt = .error e)
    (ht : isTransientError e = true) :
    withRetry op (retries + 1) delayMs attempt =
      ((withRetry op retries (delayMs * 2) (attempt + 1)).1,
       (withRetry op retries (delayMs * 2) (attempt + 1)).2.1 + 1,
       delayMs :: (withRetry op retries (delayMs * 2) (attempt + 1)).2.2) := by
  conv_lhs => unfold withRetry
  rw [h]
  simp [ht]

theorem withRetry_attempts_pos {α : Type} (op : Nat → Except JsError α) :
    ∀ (retries delayMs attempt : Nat), 1 ≤ (withRetry op retries delayMs attempt).2.1
  | 0, _, attempt => by
    cases h : op attempt with
    | ok v => simp [withRetry_of_ok h]
    | error e => simp [withRetry_zero_error h]
  | retries + 1, _, attempt => by
    cases h : op attempt with
    | ok v => simp [withRetry_of_ok h]
    | error e =>
      cases ht : isTransientError e with
      | false => simp [withRetry_fatal h ht]
      | true => simp [withRetry_transient h ht]

theorem withRetry_attempts {α : Type} (op : Nat → Except JsError α) :
    ∀ (retries delayMs attempt : Nat),
      (withRetry op retries delayMs attempt).2.1 ≤ retries + 1 ∧
      (withRetry op retries delayMs attempt).2.2 =
        (List.range ((withRetry op retries delayMs attempt).2.1 - 1)).map
          (fun i => delayMs * 2 ^ i)
  | 0, delayMs, attempt => by
    cases h : op attempt with
    | ok v => simp [withRetry_of_ok h]
    | error e => simp [withRetry_zero_error h]
  | retries + 1, delayMs, attempt => by
    cases h : op attempt with
    | ok v => simp [withRetry_of_ok h]
    | error e =>
      cases ht : isTransientError e with
      | false => simp [withRetry_fatal h ht]
      | true =>
        have ih := withRetry_attempts op retries (delayMs * 2) (attempt + 1)
        have hpos := withRetry_attempts_pos op retries (delayMs * 2) (attempt + 1)
        rw [withRetry_transient h ht]
        constructor
        · show (withRetry op retries (delayMs * 2) (attempt + 1)).2.1 + 1 ≤ retries + 1 + 1
          omega
        · show delayMs :: (withRetry op retries (delayMs * 2) (attempt + 1)).2.2 =
            (List.range ((withRetry op retries (delayMs * 2) (attempt + 1)).2.1 + 1 - 1)).map
              (fun i => delayMs * 2 ^ i)
          rcases Nat.exists_eq_add_of_le hpos with ⟨k, hk⟩
          rw [ih.2, hk, Nat.add_comm 1 k]
          simp only [Nat.add_sub_cancel]
          rw [List.range_succ_eq_map]
          simp only [List.map_cons, List.map_map]
          congr 1
          · simp
          · exact List.map_congr_left (fun i _ => by
              simp only [Function.comp]
              rw [pow_succ]
              ring)

/-- C9: `withRetry` performs at most 4 total attempts with its defaults
(3 retries, 1000 ms starting delay); the back-off sleeps double starting at
1000; a first-attempt error that is not a transient signal (429 / 5xx /
rate-limit / quota message) is rethrown immediately with no retry and no
sleep; and if every attempt fails transiently the operation is tried exactly
4 times with sleeps 1000, 2000, 4000 ms, rethrowing the fourth error. -/
theorem withRetry_policy {α : Type} (op : Nat → Except JsError α) :
    (withRetry op 3 1000 0).2.1 ≤ 4 ∧
    (withRetry op 3 1000 0).2.2 =
      (List.range ((withRetry op 3 1000 0).2.1 - 1)).map (fun i => 1000 * 2 ^ i) ∧
    (∀ e, op 0 = .error e → isTransientError e = false →
      withRetry op 3 1000 0 = (.error e, 1, [])) ∧
    (∀ f : Nat → JsError, (∀ k, op k = .error (f k)) →
      (∀ k, isTransientError (f k) = true) →
      withRetry op 3 1000 0 = (.error (f 3), 4, [1000, 2000, 4000])) := by
  refine ⟨(withRetry_attempts op 3 1000 0).1, (withRetry_attempts op 3 1000 0).2,
    fun e he hte => withRetry_fatal he hte, fun f hop htr => ?_⟩
  have e1 := @withRetry_transient _ op (f 0) 2 1000 0 (hop 0) (htr 0)
  have e2 := @withRetry_transient _ op (f 1) 1 2000 1 (hop 1) (htr 1)
  have e3 := @withRetry_transient _ op (f 2) 0 4000 2 (hop 2) (htr 2)
  have e4 := @withRetry_zero_error _ op (f 3) 8000 3 (hop 3)
  norm_num at e1 e2 e3
  rw [e1, e2, e3, e4]

/-- Witness for C9: a 400-status auth-style error is not transient and is
rethrown on the spot; a 429 op is retried to exhaustion with doubling sleeps. -/
theorem withRetry_policy_witness :
    ((fun _ => .error { status := some 400, message := "OpenAI API error: bad key" } :
        Nat → Except JsError Nat) 0 =
          .error { status := some 400, message := "OpenAI API error: bad key" } ∧
      isTransientError { status := some 400, message := "OpenAI API error: bad key" } = false) ∧
    withRetry (fun _ => .error { status := some 400, message := "OpenAI API error: bad key" } :
        Nat → Except JsError Nat) 3 1000 0 =
      (.error { status := some 400, message := "OpenAI API error: bad key" }, 1, []) ∧
    withRetry (fun _ => .error { status := some 429 } : Nat → Except JsError Nat) 3 1000 0 =
      (.error { status := some 429 }, 4, [1000, 2000, 4000]) :=
  ⟨⟨rfl, by decide⟩,
    (withRetry_policy _).2.2.1 _ rfl (by decide),
    (withRetry_policy _).2.2.2 (fun _ => { status := some 429 }) (fun _ => rfl)
      (by intro k; show isTransientError { status := some 429 } = true; decide)⟩

/-! ### C7: tolerant response parsing -/

/-- C7: `safeJsonParse` is total — for every input text it either returns a
decoded value or the stage's default.  Empty / whitespace-only text yields
the default, Markdown code fences are stripped before decoding, any decode
failure yields the default, and a successful decode of the fence-stripped
text is returned as-is. -/
theorem safeJsonParse_total {T : Type} (decode : String → Option T)
    (text : String) (d : T) :
    (safeJsonParse decode text d = d ∨
      ∃ v, decode (stripFences text) = some v ∧ safeJsonParse decode text d = v) ∧
    (jsTrim text = "" → safeJsonParse decode text d = d) ∧
    (decode (stripFences text) = none → safeJsonParse decode text d = d) ∧
    (∀ v, jsTrim text ≠ "" → decode (stripFences text) = some v →
      safeJsonParse decode text d = v) := by
  unfold safeJsonParse
  by_cases h : jsTrim text = ""
  · simp [h]
  · cases hd : decode (stripFences text) with
    | none => simp [h, hd]
    | some v => simp [h, hd]

/-- Witness for C7: a fenced JSON payload is stripped and decoded; a
malformed payload falls back to the default. -/
theorem safeJsonParse_total_witness :
    (jsTrim "```json\n[1,2]\n```" ≠ "" ∧
      (fun s => if s = "[1,2]" then some 42 else none)
        (stripFences "```json\n[1,2]\n```") = some 42) ∧
    safeJsonParse (fun s => if s = "[1,2]" then some 42 else none)
      "```json\n[1,2]\n```" 0 = 42 ∧
    ((fun _ => (none : Option Nat)) (stripFences "not json") = none ∧
      safeJsonParse (fun _ => (none : Option Nat)) "not json" 7 = 7) :=
  ⟨⟨by decide, by decide⟩,
    (safeJsonParse_total _ _ 0).2.2.2 42 (by decide) (by decide),
    ⟨rfl, (safeJsonParse_total _ _ 7).2.2.1 rfl⟩⟩

/-! ### C4: index filtering and row overwriting in `processBucket` -/

theorem markBL_idem (b lbl : String) (r : ConversationRow) :
    markBL b lbl (markBL b lbl r) = markBL b lbl r := rfl

theorem length_setRowBucket (rows : List ConversationRow) (idx : Nat) (b lbl : String) :
    (setRowBucket rows idx b lbl).length = rows.length :=
  List.length_set rows idx _

theorem getD_setRowBucket_ne (rows : List ConversationRow) {i idx : Nat} (h : i ≠ idx)
    (b lbl : String) (d : ConversationRow) :
    (setRowBucket rows idx b lbl).getD i d = rows.getD i d := by
  simp [setRowBucket, List.getD_eq_getElem?_getD, List.getElem?_set_ne (Ne.symm h)]

theorem getD_setRowBucket_self (rows : List ConversationRow) {idx : Nat}
    (h : idx < rows.length) (b lbl : String) (d : ConversationRow) :
    (setRowBucket rows idx b lbl).getD idx d = markBL b lbl (rows.getD idx d) := by
  simp [setRowBucket, List.getD_eq_getElem?_getD, List.getElem?_set_self h, markBL,
    List.getD_eq_getElem?_getD, List.getElem?_eq_getElem h]

theorem foldl_setRowBucket_invariant (b lbl : String) (i : Nat) (d : ConversationRow) :
    ∀ (js : List Nat) (rows : List ConversationRow),
      (js.foldl (fun rs j => setRowBucket rs j b lbl) rows).length = rows.length ∧
      (i ∉ js →
        (js.foldl (fun rs j => setRowBucket rs j b lbl) rows).getD i d = rows.getD i d) ∧
      (i ∈ js → i < rows.length →
        (js.foldl (fun rs j => setRowBucket rs j b lbl) rows).getD i d =
          markBL b lbl (rows.getD i d)) ∧
      (∀ x, (js.foldl (fun rs j => setRowBucket rs j b lbl) rows).getD i d = x →
        x = rows.getD i d ∨ x = markBL b lbl (rows.getD i d))
  | [], rows => by simp
  | j :: js, rows => by
    have ih := foldl_setRowBucket_invariant b lbl i d js (setRowBucket rows j b lbl)
    simp only [List.foldl_cons]
    refine ⟨by rw [ih.1, length_setRowBucket], ?_, ?_, ?_⟩
    · intro hni
      rw [ih.2.1 (fun h => hni (List.mem_cons.2 (Or.inr h))),
        getD_setRowBucket_ne rows (fun h => hni (List.mem_cons.2 (Or.inl h))) b lbl d]
    · intro hmem hlt
      rcases Decidable.em (i = j) with rfl | hne
      · have hset : (setRowBucket rows i b lbl).getD i d = markBL b lbl (rows.getD i d) :=
          getD_setRowBucket_self rows hlt b lbl d
        rcases Decidable.em (i ∈ js) with hmem' | hnmem'
        · rw [ih.2.2.1 hmem' (by rw [length_setRowBucket]; exact hlt), hset, markBL_idem]
        · rw [ih.2.1 hnmem', hset]
      · have hset : (setRowBucket rows j b lbl).getD i d = rows.getD i d :=
          getD_setRowBucket_ne rows hne b lbl d
        have hmem' : i ∈ js := by
          rcases List.mem_cons.1 hmem with h | h
          · exact absurd h hne
          · exact h
        rw [ih.2.2.1 hmem' (by rw [length_setRowBucket]; exact hlt), hset]
    · intro x hx
      rcases ih.2.2.2 x hx with h | h <;>
        rcases Decidable.em (i = j) with rfl | hne
      · rcases Decidable.em (i < rows.length) with hlt | hge
        · rw [getD_setRowBucket_self rows hlt b lbl d] at h
          exact Or.inr h
        · rw [List.getD_eq_getElem?_getD, List.getElem?_eq_none (by
            rw [length_setRowBucket]; omega)] at h
          rw [List.getD_eq_getElem?_getD, List.getElem?_eq_none (by omega)]
          exact Or.inl h
      · rw [getD_setRowBucket_ne rows hne b lbl d] at h
        exact Or.inl h
      · rcases Decidable.em (i < rows.length) with hlt | hge
        · rw [getD_setRowBucket_self rows hlt b lbl d, markBL_idem] at h
          exact Or.inr h
        · rw [List.getD_eq_getElem?_getD, List.getElem?_eq_none (by
            rw [length_setRowBucket]; omega)] at h
          refine Or.inr ?_
          rw [List.getD_eq_getElem?_getD, List.getElem?_eq_none (by omega)]
          exact h
      · rw [getD_setRowBucket_ne rows hne b lbl d] at h
        exact Or.inr h

theorem contains_iff_mem {l : List Nat} {i : Nat} : l.contains i = true ↔ i ∈ l :=
  List.elem_iff

theorem claimedBy_nil (n i : Nat) : claimedBy [] n i = false := rfl

theorem claimedBy_cons (rec : BucketRecommendation) (recs : List BucketRecommendation)
    (n i : Nat) :
    claimedBy (rec :: recs) n i = (claimedBy [rec] n i || claimedBy recs n i) := by
  simp [claimedBy]

theorem applyRec_invariant (rec : BucketRecommendation) (rows : List ConversationRow)
    (b lbl : String) (i : Nat) (d : ConversationRow) :
    (applyRec rows rec b lbl).length = rows.length ∧
    (claimedBy [rec] rows.length i = false →
      (applyRec rows rec b lbl).getD i d = rows.getD i d) ∧
    (i < rows.length → claimedBy [rec] rows.length i = true →
      (applyRec rows rec b lbl).getD i d = markBL b lbl (rows.getD i d)) ∧
    (∀ x, (applyRec rows rec b lbl).getD i d = x →
      x = rows.getD i d ∨ x = markBL b lbl (rows.getD i d)) := by
  cases h : rec.indices with
  | none =>
    simp [applyRec, h, claimedBy]
  | some l =>
    have hcl : claimedBy [rec] rows.length i =
        (natIndices (filterIndices rows.length l)).contains i := by
      simp [claimedBy, h]
    have hinv := foldl_setRowBucket_invariant b lbl i d
      (natIndices (filterIndices rows.length l)) rows
    simp only [applyRec, h]
    refine ⟨hinv.1, ?_, ?_, hinv.2.2.2⟩
    · intro hfalse
      refine hinv.2.1 ?_
      rw [hcl] at hfalse
      intro hmem
      rw [contains_iff_mem.2 hmem] at hfalse
      cases hfalse
    · intro hlt htrue
      rw [hcl] at htrue
      exact hinv.2.2.1 (contains_iff_mem.1 htrue) hlt

theorem foldl_applyRec_invariant (b lbl : String) (i : Nat) (d : ConversationRow) :
    ∀ (recs : List BucketRecommendation) (rows : List ConversationRow),
      (recs.foldl (fun rs rec => applyRec rs rec b lbl) rows).length = rows.length ∧
      (claimedBy recs rows.length i = false →
        (recs.foldl (fun rs rec => applyRec rs rec b lbl) rows).getD i d = rows.getD i d) ∧
      (i < rows.length → claimedBy recs rows.length i = true →
        (recs.foldl (fun rs rec => applyRec rs rec b lbl) rows).getD i d =
          markBL b lbl (rows.getD i d)) ∧
      (∀ x, (recs.foldl (fun rs rec => applyRec rs rec b lbl) rows).getD i d = x →
        x = rows.getD i d ∨ x = markBL b lbl (rows.getD i d))
  | [], rows => by simp [claimedBy]
  | rec :: recs, rows => by
    have harec := applyRec_invariant rec rows b lbl i d
    have ih := foldl_applyRec_invariant b lbl i d recs (applyRec rows rec b lbl)
    have hlen : (applyRec rows rec b lbl).length = rows.length := harec.1
    simp only [List.foldl_cons]
    refine ⟨by rw [ih.1, hlen], ?_, ?_, ?_⟩
    · intro hfalse
      rw [claimedBy_cons] at hfalse
      have h1 : claimedBy [rec] rows.length i = false := by
        cases h : claimedBy [rec] rows.length i
        · rfl
        · rw [h] at hfalse; cases hfalse
      have h2 : claimedBy recs rows.length i = false := by
        cases h : claimedBy recs rows.length i
        · rfl
        · rw [h] at hfalse; simp at hfalse
      rw [ih.2.1 (by rw [hlen]; exact h2), harec.2.1 h1]
    · intro hlt htrue
      rw [claimedBy_cons] at htrue
      cases h2 : claimedBy recs rows.length i with
      | true =>
        rw [ih.2.2.1 (by rw [hlen]; exact hlt) (by rw [hlen]; exact h2)]
        rcases harec.2.2.2 _ rfl with h | h
        · rw [h]
        · rw [h, markBL_idem]
      | false =>
        have h1 : claimedBy [rec] rows.length i = true := by
          rw [h2] at htrue; simpa using htrue
        rw [ih.2.1 (by rw [hlen]; exact h2), harec.2.2.1 hlt h1]
    · intro x hx
      rcases ih.2.2.2 x hx with h | h
      · exact harec.2.2.2 x h.symm
      · rcases harec.2.2.2 _ rfl with h' | h'
        · rw [h'] at h
          exact Or.inr h
        · rw [h', markBL_idem] at h
          exact Or.inr h

/-- C4: `processBucket` filters each recommendation's explicit indices to
integers in `[0, row_count)` — silently dropping out-of-range and
non-integer values rather than failing — rewrites the recommendation's
`count` to the filtered length, and overwrites exactly the referenced rows,
touching only their `BUCKET`/`BUCKET_LABEL` fields; unreferenced rows are
returned unchanged and the row count is preserved (no exception is possible:
the model is a total function). -/
theorem processBucket_filter_override (recs : List BucketRecommendation)
    (rows : List ConversationRow) (b lbl : String) :
    (∀ r', r' ∈ (processBucket recs rows b lbl).1 →
      ∃ rec ∈ recs, r' = updRec rows.length rec) ∧
    (∀ rec, ∀ l, rec.indices = some l →
      (updRec rows.length rec).indices = some (filterIndices rows.length l) ∧
      (updRec rows.length rec).count = some ((filterIndices rows.length l).length : ℚ) ∧
      ∀ q ∈ filterIndices rows.length l, q.den = 1 ∧ 0 ≤ q ∧ q < (rows.length : ℚ)) ∧
    (processBucket recs rows b lbl).2.length = rows.length ∧
    (∀ i, claimedBy recs rows.length i = false →
      (processBucket recs rows b lbl).2.getD i default = rows.getD i default) ∧
    (∀ i, i < rows.length → claimedBy recs rows.length i = true →
      (processBucket recs rows b lbl).2.getD i default =
        markBL b lbl (rows.getD i default)) := by
  refine ⟨?_, ?_, (foldl_applyRec_invariant b lbl 0 default recs rows).1,
    fun i => (foldl_applyRec_invariant b lbl i default recs rows).2.1,
    fun i => (foldl_applyRec_invariant b lbl i default recs rows).2.2.1⟩
  · intro r' hr'
    have hperm := jsSort_perm (fun a b => decide (recScore b ≤ recScore a))
      (recs.map (updRec rows.length))
    have := hperm.mem_iff.1 hr'
    rcases List.mem_map.1 this with ⟨rec, hrec, heq⟩
    exact ⟨rec, hrec, heq.symm⟩
  · intro rec l hl
    refine ⟨by simp [updRec, hl], by simp [updRec, hl], ?_⟩
    intro q hq
    have := List.mem_filter.1 hq
    have hb := this.2
    simp only [Bool.and_eq_true, beq_iff_eq, decide_eq_true_eq] at hb
    exact ⟨hb.1.1, hb.1.2, hb.2⟩

/-- Witness for C4: a recommendation listing indices `999`, `2` and `3/2` on
a 10-row dataset keeps only `2`, its count becomes 1, row 2 is overwritten
with the bucket id/label only, and row 5 is untouched. -/
theorem processBucket_filter_override_witness :
    (wRec999.indices = some [999, 2, mkRat 3 2] ∧
      claimedBy [wRec999] wRows10.length 5 = false ∧
      (2 : Nat) < wRows10.length ∧ claimedBy [wRec999] wRows10.length 2 = true) ∧
    filterIndices wRows10.length [999, 2, mkRat 3 2] = [2] ∧
    (updRec wRows10.length wRec999).count = some 1 ∧
    (processBucket [wRec999] wRows10 "1" "Service Expansion (New Agent)").2.getD 5 default =
      wRowPos ∧
    (processBucket [wRec999] wRows10 "1" "Service Expansion (New Agent)").2.getD 2 default =
      markBL "1" "Service Expansion (New Agent)" wRowPos :=
  ⟨⟨rfl, by decide, by decide, by decide⟩, by decide, by decide,
    (processBucket_filter_override [wRec999] wRows10 "1"
      "Service Expansion (New Agent)").2.2.2.1 5 (by decide),
    (processBucket_filter_override [wRec999] wRows10 "1"
      "Service Expansion (New Agent)").2.2.2.2 2 (by decide) (by decide)⟩

/-! ### C3: per-bucket merge and deduplication -/

theorem assocGet_nil {β : Type} (k : String) : assocGet ([] : List (String × β)) k = none := rfl

theorem assocGet_cons {β : Type} (k0 : String) (v0 : β) (t : List (String × β)) (k : String) :
    assocGet ((k0, v0) :: t) k = if k0 = k then some v0 else assocGet t k := by
  by_cases h : k0 = k
  · simp [assocGet, List.find?_cons, h]
  · simp [assocGet, List.find?_cons, h]

theorem assocSet_cons_of_eq {β : Type} {k0 : String} (v0 : β) (t : List (String × β))
    {k : String} (v : β) (h : k0 = k) :
    assocSet ((k0, v0) :: t) k v = (k, v) :: t := by
  simp [assocSet, h]

theorem assocSet_cons_of_ne {β : Type} {k0 : String} (v0 : β) (t : List (String × β))
    {k : String} (v : β) (h : ¬ k0 = k) :
    assocSet ((k0, v0) :: t) k v = (k0, v0) :: assocSet t k v := by
  simp [assocSet, h]

theorem assocGet_assocSet {β : Type} :
    ∀ (m : List (String × β)) (k k' : String) (v : β),
      assocGet (assocSet m k v) k' = if k' = k then some v else assocGet m k'
  | [], k, k', v => by
    rw [show assocSet ([] : List (String × β)) k v = [(k, v)] from rfl,
      assocGet_cons, assocGet_nil]
    by_cases h : k' = k
    · rw [if_pos h.symm, if_pos h]
    · rw [if_neg (fun hh => h hh.symm), if_neg h]
  | (k0, v0) :: t, k, k', v => by
    by_cases h0 : k0 = k
    · rw [assocSet_cons_of_eq v0 t v h0, assocGet_cons, assocGet_cons, h0]
      by_cases h : k' = k
      · rw [if_pos h.symm, if_pos h]
      · rw [if_neg (fun hh => h hh.symm), if_neg h, if_neg (fun hh => h hh.symm)]
    · rw [assocSet_cons_of_ne v0 t v h0, assocGet_cons, assocGet_cons,
        assocGet_assocSet t k k' v]
      by_cases h : k0 = k'
      · subst h
        rw [if_pos rfl, if_pos rfl, if_neg (fun hh : k0 = k => h0 hh)]
      · rw [if_neg h, if_neg h]

theorem mem_assocSet {β : Type} {p : String × β} :
    ∀ {m : List (String × β)} {k : String} {v : β},
      p ∈ assocSet m k v → p = (k, v) ∨ p ∈ m
  | [], k, v, h => by simpa [assocSet] using h
  | (k0, v0) :: t, k, v, h => by
    by_cases h0 : k0 = k
    · rw [assocSet_cons_of_eq v0 t v h0] at h
      rcases List.mem_cons.1 h with h' | h'
      · exact Or.inl h'
      · exact Or.inr (List.mem_cons.2 (Or.inr h'))
    · rw [assocSet_cons_of_ne v0 t v h0] at h
      rcases List.mem_cons.1 h with h' | h'
      · exact Or.inr (List.mem_cons.2 (Or.inl h'))
      · rcases mem_assocSet h' with h'' | h''
        · exact Or.inl h''
        · exact Or.inr (List.mem_cons.2 (Or.inr h''))

theorem keys_assocSet {β : Type} :
    ∀ (m : List (String × β)) (k : String) (v : β),
      (assocSet m k v).map Prod.fst =
        if k ∈ m.map Prod.fst then m.map Prod.fst else m.map Prod.fst ++ [k]
  | [], k, v => by simp [assocSet]
  | (k0, v0) :: t, k, v => by
    by_cases h0 : k0 = k
    · subst h0
      rw [assocSet_cons_of_eq v0 t v rfl]
      simp
    · rw [assocSet_cons_of_ne v0 t v h0]
      simp only [List.map_cons]
      rw [keys_assocSet t k v]
      by_cases h : k ∈ t.map Prod.fst
      · rw [if_pos h, if_pos (List.mem_cons.2 (Or.inr h))]
      · rw [if_neg h, if_neg (by
          intro hmem
          rcases List.mem_cons.1 hmem with hh | hh
          · exact h0 hh.symm
          · exact h hh), List.cons_append]

theorem nodupKeys_assocSet {β : Type} {m : List (String × β)} (k : String) (v : β)
    (h : (m.map Prod.fst).Nodup) : ((assocSet m k v).map Prod.fst).Nodup := by
  rw [keys_assocSet]
  by_cases hk : k ∈ m.map Prod.fst
  · simpa [hk] using h
  · rw [if_neg hk]
    exact h.append (List.nodup_singleton k)
      (by intro x hx hxk; simp at hxk; subst hxk; exact hk hx)

theorem mergeStep_eq_none {m : List (String × BucketRecommendation)}
    {rec : BucketRecommendation} (h : assocGet m (recKey rec) = none) :
    mergeStep m rec = assocSet m (recKey rec) rec := by
  unfold mergeStep
  rw [h]

theorem mergeStep_eq_of_lt {m : List (String × BucketRecommendation)}
    {rec existing : BucketRecommendation}
    (h : assocGet m (recKey rec) = some existing)
    (hs : recScore existing < recScore rec) :
    mergeStep m rec = assocSet m (recKey rec) rec := by
  unfold mergeStep
  rw [h]
  exact if_pos hs

theorem mergeStep_eq_of_ge {m : List (String × BucketRecommendation)}
    {rec existing : BucketRecommendation}
    (h : assocGet m (recKey rec) = some existing)
    (hs : ¬ recScore existing < recScore rec) :
    mergeStep m rec = m := by
  unfold mergeStep
  rw [h]
  exact if_neg hs

theorem mergeStep_wellKeyed {m : List (String × BucketRecommendation)}
    (hwk : ∀ p ∈ m, p.1 = recKey p.2) (rec : BucketRecommendation) :
    ∀ p ∈ mergeStep m rec, p.1 = recKey p.2 := by
  intro p hp
  rcases hget : assocGet m (recKey rec) with _ | existing
  · rw [mergeStep_eq_none hget] at hp
    rcases mem_assocSet hp with rfl | hmem
    · rfl
    · exact hwk p hmem
  · by_cases hs : recScore existing < recScore rec
    · rw [mergeStep_eq_of_lt hget hs] at hp
      rcases mem_assocSet hp with rfl | hmem
      · rfl
      · exact hwk p hmem
    · rw [mergeStep_eq_of_ge hget hs] at hp
      exact hwk p hp

theorem mergeStep_nodupKeys {m : List (String × BucketRecommendation)}
    (hnd : (m.map Prod.fst).Nodup) (rec : BucketRecommendation) :
    ((mergeStep m rec).map Prod.fst).Nodup := by
  rcases hget : assocGet m (recKey rec) with _ | existing
  · rw [mergeStep_eq_none hget]
    exact nodupKeys_assocSet _ _ hnd
  · by_cases hs : recScore existing < recScore rec
    · rw [mergeStep_eq_of_lt hget hs]
      exact nodupKeys_assocSet _ _ hnd
    · rw [mergeStep_eq_of_ge hget hs]
      exact hnd

theorem foldl_mergeStep_wellKeyed :
    ∀ (recs : List BucketRecommendation) (m : List (String × BucketRecommendation)),
      (∀ p ∈ m, p.1 = recKey p.2) →
      ∀ p ∈ recs.foldl mergeStep m, p.1 = recKey p.2
  | [], _, hwk => hwk
  | rec :: recs, m, hwk =>
    foldl_mergeStep_wellKeyed recs (mergeStep m rec) (mergeStep_wellKeyed hwk rec)

theorem foldl_mergeStep_nodupKeys :
    ∀ (recs : List BucketRecommendation) (m : List (String × BucketRecommendation)),
      (m.map Prod.fst).Nodup →
      (((recs.foldl mergeStep m).map Prod.fst)).Nodup
  | [], _, hnd => hnd
  | rec :: recs, m, hnd =>
    foldl_mergeStep_nodupKeys recs (mergeStep m rec) (mergeStep_nodupKeys hnd rec)

theorem foldl_mergeStep_lookup :
    ∀ (recs : List BucketRecommendation) (m : List (String × BucketRecommendation))
      (k : String),
      assocGet (recs.foldl mergeStep m) k =
        combineW (assocGet m k) (recs.filter (fun r => recKey r == k))
  | [], m, k => by
    rcases h : assocGet m k with _ | v <;> simp [h, combineW]
  | rec :: recs, m, k => by
    simp only [List.foldl_cons, List.filter_cons]
    by_cases hk : recKey rec = k
    · rw [if_pos (by simpa using hk)]
      rw [foldl_mergeStep_lookup recs (mergeStep m rec) k]
      rcases hget : assocGet m (recKey rec) with _ | existing
      · rw [mergeStep_eq_none hget, assocGet_assocSet, if_pos hk.symm, ← hk, hget]
        rfl
      · by_cases hs : recScore existing < recScore rec
        · rw [mergeStep_eq_of_lt hget hs, assocGet_assocSet, if_pos hk.symm, ← hk, hget]
          simp [combineW, hs]
        · rw [mergeStep_eq_of_ge hget hs, ← hk, hget]
          simp [combineW, hs]
    · rw [if_neg (by simpa using hk)]
      rw [foldl_mergeStep_lookup recs (mergeStep m rec) k]
      rcases hget : assocGet m (recKey rec) with _ | existing
      · rw [mergeStep_eq_none hget, assocGet_assocSet, if_neg (fun h => hk h.symm)]
      · by_cases hs : recScore existing < recScore rec
        · rw [mergeStep_eq_of_lt hget hs, assocGet_assocSet,
            if_neg (fun h => hk h.symm)]
        · rw [mergeStep_eq_of_ge hget hs]

theorem mem_values_iff_assocGet :
    ∀ (m : List (String × BucketRecommendation)),
      (∀ p ∈ m, p.1 = recKey p.2) → ((m.map Prod.fst).Nodup) →
      ∀ r : BucketRecommendation,
        r ∈ m.map Prod.snd ↔ assocGet m (recKey r) = some r
  | [], _, _, r => by simp [assocGet_nil]
  | (k0, v0) :: t, hwk, hnd, r => by
    have hk0 : k0 = recKey v0 := hwk _ (List.mem_cons_self _ _)
    simp only [List.map_cons, List.nodup_cons] at hnd
    rw [assocGet_cons]
    by_cases h : k0 = recKey r
    · rw [if_pos h]
      have hnot : r ∉ t.map Prod.snd := by
        intro hmem
        rcases List.mem_map.1 hmem with ⟨p, hp, hp2⟩
        have : p.1 = recKey r := by
          rw [hwk p (List.mem_cons.2 (Or.inr hp)), hp2]
        exact hnd.1 (by
          rw [h, ← this]
          exact List.mem_map_of_mem Prod.fst hp)
      simp only [List.map_cons, List.mem_cons, Option.some_inj]
      constructor
      · rintro (rfl | hmem)
        · rfl
        · exact absurd hmem hnot
      · rintro rfl
        exact Or.inl rfl
    · rw [if_neg h]
      rw [← mem_values_iff_assocGet t
        (fun p hp => hwk p (List.mem_cons.2 (Or.inr hp))) hnd.2 r]
      simp only [List.map_cons, List.mem_cons]
      constructor
      · rintro (rfl | hmem)
        · exact absurd hk0 h
        · exact hmem
      · exact Or.inr

/-- C3 (amended): `mergeRecommendations` keeps at most one entry per
normalised topic; each surviving entry is exactly the fold of its same-key
candidates in arrival order (Stage-A before Stage-B) where a candidate
replaces the incumbent only with a *strictly higher* goal-alignment score —
so on a score tie the earlier-inserted (Stage-A) entry is kept — and the
output is sorted descending by goal-alignment score. -/
theorem mergeRecommendations_spec (strategic detail : List BucketRecommendation) :
    ((mergeRecommendations strategic detail).map recKey).Nodup ∧
    (mergeRecommendations strategic detail).Pairwise
      (fun a b => recScore b ≤ recScore a) ∧
    (∀ r, r ∈ mergeRecommendations strategic detail ↔
      pickWinner ((strategic ++ detail).filter (fun x => recKey x == recKey r)) = some r) := by
  have hwk := foldl_mergeStep_wellKeyed (strategic ++ detail) [] (by simp)
  have hnd := foldl_mergeStep_nodupKeys (strategic ++ detail) [] (by simp)
  have hperm : (mergeRecommendations strategic detail).Perm
      (((strategic ++ detail).foldl mergeStep []).map Prod.snd) :=
    jsSort_perm _ _
  refine ⟨?_, ?_, ?_⟩
  · have : ((mergeRecommendations strategic detail).map recKey).Perm
        ((((strategic ++ detail).foldl mergeStep []).map Prod.snd).map recKey) :=
      hperm.map recKey
    rw [this.nodup_iff]
    rw [List.map_map]
    have : ((strategic ++ detail).foldl mergeStep []).map (recKey ∘ Prod.snd) =
        ((strategic ++ detail).foldl mergeStep []).map Prod.fst :=
      List.map_congr_left (fun p hp => (hwk p hp).symm)
    rw [this]
    exact hnd
  · have := @jsSort_pairwise _
      (fun a b : BucketRecommendation => decide (recScore b ≤ recScore a))
      (fun a b c hab hbc => by
        simp only [decide_eq_true_eq] at *
        exact le_trans hbc hab)
      (fun a b => by
        simp only [decide_eq_true_eq]
        exact le_total (recScore b) (recScore a))
      (((strategic ++ detail).foldl mergeStep []).map Prod.snd)
    exact this.imp (fun h => by simpa using h)
  · intro r
    rw [hperm.mem_iff, mem_values_iff_assocGet _ hwk hnd r,
      foldl_mergeStep_lookup (strategic ++ detail) [] (recKey r)]
    rfl

/-- Counterexample to C3 as stated: two recommendations with the same
normalised topic and *equal* goal-alignment scores — the merge keeps the
earlier (Stage-A) object, not the later (Stage-B) one. -/
theorem mergeRecommendations_tie_counterexample :
    recKey cRecA = recKey cRecB ∧ recScore cRecA = recScore cRecB ∧
    cRecA ≠ cRecB ∧
    mergeRecommendations [cRecA] [cRecB] = [cRecA] := by
  refine ⟨by decide, by decide, by decide, by decide⟩

/-- Witness for C3 (amended): on the tie fixture the winner characterisation
picks the Stage-A entry, which is the sole member of the merged output. -/
theorem mergeRecommendations_spec_witness :
    (pickWinner (([cRecA] ++ [cRecB]).filter (fun x => recKey x == recKey cRecA)) =
        some cRecA) ∧
    cRecA ∈ mergeRecommendations [cRecA] [cRecB] ∧
    ((mergeRecommendations [cRecA] [cRecB]).map recKey).Nodup :=
  ⟨by decide,
    ((mergeRecommendations_spec [cRecA] [cRecB]).2.2 cRecA).2 (by decide),
    (mergeRecommendations_spec [cRecA] [cRecB]).1⟩

/-! ### C5: failure-row sampling -/

theorem enumFrom_pairwise {α : Type} :
    ∀ (i : Nat) (l : List α), (List.enumFrom i l).Pairwise (fun p q => p.1 < q.1)
  | _, [] => by simp
  | i, x :: xs => by
    rw [List.enumFrom_cons, List.pairwise_cons]
    refine ⟨fun q hq => ?_, enumFrom_pairwise (i + 1) xs⟩
    rcases q with ⟨j, y⟩
    have := (List.mem_enumFrom hq).1
    simpa using lt_of_lt_of_le (Nat.lt_succ_self i) this

theorem not_pair_self_sublist {α : Type} [DecidableEq α] {u : α} {l : List α}
    (hnd : l.Nodup) : ¬ [u, u].Sublist l := by
  intro hsub
  have h2 : List.count u [u, u] ≤ List.count u l := hsub.count_le u
  simp [List.count_cons_self] at h2
  exact absurd (List.nodup_iff_count_le_one.1 hnd u) (by omega)

/-- The qualifying entries of `getFailureRows` (before sorting/truncation). -/
theorem failure_qualified_facts (rows : List ConversationRow) :
    (∀ e ∈ (List.enumFrom 0 rows).filterMap (fun p =>
        if isNegativeRow p.2 || isUnresolvedRow p.2 || isDropOffRow p.2 then
          some (⟨p.2, p.1, failureSortKey p.2⟩ : FailureEntry)
        else none),
      failureQualifies e.row = true ∧ e.originalIndex < rows.length ∧
        e.row = rows.getD e.originalIndex default ∧ e.sortKey = failureSortKey e.row) ∧
    ((List.enumFrom 0 rows).filterMap (fun p =>
        if isNegativeRow p.2 || isUnresolvedRow p.2 || isDropOffRow p.2 then
          some (⟨p.2, p.1, failureSortKey p.2⟩ : FailureEntry)
        else none)).Pairwise (fun u v => u.originalIndex < v.originalIndex) := by
  constructor
  · intro e he
    rcases List.mem_filterMap.1 he with ⟨p, hp, hfp⟩
    rcases p with ⟨i, r⟩
    by_cases hq : isNegativeRow r || isUnresolvedRow r || isDropOffRow r
    · rw [if_pos hq] at hfp
      cases hfp
      have hmem := List.mem_enumFrom hp
      refine ⟨hq, by simpa using hmem.2.1, ?_, rfl⟩
      have : r = rows[i - 0] := hmem.2.2
      simp only [Nat.sub_zero] at this
      rw [this, List.getD_eq_getElem?_getD,
        List.getElem?_eq_getElem (by simpa using hmem.2.1)]
      rfl
    · rw [if_neg hq] at hfp
      cases hfp
  · exact (enumFrom_pairwise 0 rows).filterMap _ (by
      rintro ⟨i, r⟩ ⟨j, r'⟩ hij e he e' he'
      by_cases hq : isNegativeRow r || isUnresolvedRow r || isDropOffRow r
      · rw [if_pos hq] at he
        cases he
        by_cases hq' : isNegativeRow r' || isUnresolvedRow r' || isDropOffRow r'
        · rw [if_pos hq'] at he'
          cases he'
          exact hij
        · rw [if_neg hq'] at he'
          cases he'
      · rw [if_neg hq] at he
        cases he)

/-- C5: `getFailureRows` returns at most `topN` entries; every returned entry
is a qualifying row (negative sentiment, unresolved, or user-drop-off) paired
with its in-range original index; no index is returned twice; and the output
is ordered negative-class first, then unresolved, then drop-off, with ties in
class keeping the original input order. -/
theorem getFailureRows_spec (rows : List ConversationRow) (topN : Nat) :
    (getFailureRows rows topN).length ≤ topN ∧
    (∀ x ∈ getFailureRows rows topN,
      failureQualifies x.1 = true ∧ x.2 < rows.length ∧
        x.1 = rows.getD x.2 default) ∧
    ((getFailureRows rows topN).map (·.2)).Nodup ∧
    (getFailureRows rows topN).Pairwise (fun a b =>
      failureSortKey a.1 < failureSortKey b.1 ∨
      (failureSortKey a.1 = failureSortKey b.1 ∧ a.2 < b.2)) := by
  have hfacts := failure_qualified_facts rows
  set qualified := (List.enumFrom 0 rows).filterMap (fun p =>
    if isNegativeRow p.2 || isUnresolvedRow p.2 || isDropOffRow p.2 then
      some (⟨p.2, p.1, failureSortKey p.2⟩ : FailureEntry)
    else none) with hq
  set le := fun a b : FailureEntry => decide (a.sortKey ≤ b.sortKey) with hle
  have htrans : ∀ a b c : FailureEntry, le a b = true → le b c = true → le a c = true := by
    intro a b c hab hbc
    simp only [hle, decide_eq_true_eq] at *
    omega
  have htot : ∀ a b : FailureEntry, le a b = true ∨ le b a = true := by
    intro a b
    simp only [hle, decide_eq_true_eq]
    omega
  have hperm : (jsSort le qualified).Perm qualified := jsSort_perm le qualified
  have hndq : qualified.Nodup := by
    have hne : qualified.Pairwise (fun a b : FailureEntry => a ≠ b) :=
      hfacts.2.imp (fun h heq => by rw [heq] at h; omega)
    exact hne
  have hnds : (jsSort le qualified).Nodup := hperm.nodup_iff.2 hndq
  have hsorted : (jsSort le qualified).Pairwise (fun a b => le a b = true) :=
    jsSort_pairwise htrans htot qualified
  have hmemq : ∀ e ∈ jsSort le qualified, e ∈ qualified := fun e he => hperm.mem_iff.1 he
  have hR : (jsSort le qualified).Pairwise (fun u v : FailureEntry =>
      u.sortKey < v.sortKey ∨ (u.sortKey = v.sortKey ∧ u.originalIndex < v.originalIndex)) := by
    rw [List.pairwise_iff_forall_sublist]
    intro u v hsub
    have hle' : u.sortKey ≤ v.sortKey := by
      have := List.pairwise_iff_forall_sublist.1 hsorted hsub
      simpa [hle] using this
    rcases Nat.lt_or_ge u.sortKey v.sortKey with hlt | hge
    · exact Or.inl hlt
    · have hkeq : u.sortKey = v.sortKey := by omega
      have hneuv : u ≠ v := by
        rintro rfl
        exact not_pair_self_sublist hnds hsub
      have hmemu : u ∈ qualified := hmemq u (hsub.subset (by simp))
      have hmemv : v ∈ qualified := hmemq v (hsub.subset (by simp))
      have hidxne : u.originalIndex ≠ v.originalIndex := by
        have hsym : Symmetric (fun a b : FailureEntry =>
            a.originalIndex ≠ b.originalIndex) := fun a b h => h.symm
        exact (hfacts.2.imp (fun h => by omega) :
          qualified.Pairwise (fun a b : FailureEntry =>
            a.originalIndex ≠ b.originalIndex)).forall hsym hmemu hmemv hneuv
      rcases Nat.lt_or_ge u.originalIndex v.originalIndex with hlt' | hge'
      · exact Or.inr ⟨hkeq, hlt'⟩
      · have hvu : [v, u].Sublist qualified :=
          pair_sublist_of_pairwise (fun a b h h' => by omega) qualified hfacts.2
            hmemv hmemu (by omega)
        have hvu' : [v, u].Sublist (jsSort le qualified) :=
          jsSort_stable htrans htot (by simp [hle]; omega) hvu
        exact (pair_sublist_antisymm _ hnds hneuv hsub hvu').elim
  refine ⟨?_, ?_, ?_, ?_⟩
  · simp only [getFailureRows, List.length_map]
    exact List.length_take_le _ _
  · intro x hx
    rcases List.mem_map.1 hx with ⟨e, he, hex⟩
    have he' : e ∈ qualified := hmemq e ((List.take_sublist _ _).subset he)
    have := hfacts.1 e he'
    rw [← hex]
    exact ⟨this.1, this.2.1, this.2.2.1⟩
  · have hq_nodup : (qualified.map (·.originalIndex)).Nodup := by
      have : qualified.Pairwise (fun a b : FailureEntry =>
          a.originalIndex ≠ b.originalIndex) :=
        hfacts.2.imp (fun h => by omega)
      exact (List.pairwise_map.2 this :
        (qualified.map (·.originalIndex)).Pairwise (fun a b => a ≠ b))
    have hs_nodup : ((jsSort le qualified).map (·.originalIndex)).Nodup :=
      ((hperm.map _).nodup_iff).2 hq_nodup
    simp only [getFailureRows, List.map_map]
    exact List.Nodup.sublist ((List.take_sublist _ _).map _) hs_nodup
  · simp only [getFailureRows]
    rw [List.pairwise_map]
    refine (List.Pairwise.sublist (List.take_sublist _ _) hR).imp_of_mem ?_
    intro a b ha hb hab
    have ha' := hfacts.1 a (hmemq a ((List.take_sublist _ _).subset ha))
    have hb' := hfacts.1 b (hmemq b ((List.take_sublist _ _).subset hb))
    rw [← ha'.2.2.2, ← hb'.2.2.2]
    exact hab

/-- Witness for C5: on the four-row fixture with cap 2, the sampler returns
the negative row then the unresolved row (the drop-off row is truncated),
and every returned pair satisfies the qualification facts. -/
theorem getFailureRows_spec_witness :
    getFailureRows wRows 2 = [(wRowNeg, 1), (wRowUnres, 3)] ∧
    ((wRowNeg, 1) ∈ getFailureRows wRows 2 ∧
      (failureQualifies (wRowNeg, 1).1 = true ∧ (wRowNeg, 1).2 < wRows.length ∧
        (wRowNeg, 1).1 = wRows.getD (wRowNeg, 1).2 default)) ∧
    (getFailureRows wRows 2).length ≤ 2 :=
  ⟨by decide,
    ⟨by decide, (getFailureRows_spec wRows 2).2.1 (wRowNeg, 1) (by decide)⟩,
    (getFailureRows_spec wRows 2).1⟩

/-! ### C2 and C6: the cluster builder -/

theorem groupGet_nil (k : String) : groupGet [] k = [] := rfl

theorem groupGet_cons (g : TopicGroup) (gs : List TopicGroup) (k : String) :
    groupGet (g :: gs) k = if g.key = k then g.indices else groupGet gs k := by
  by_cases h : g.key = k
  · simp [groupGet, List.find?_cons, h]
  · simp [groupGet, List.find?_cons, h]

theorem groupGet_insertIdx :
    ∀ (gs : List TopicGroup) (k ot : String) (i : Nat) (k' : String),
      groupGet (insertIdx gs k ot i) k' =
        if k' = k then groupGet gs k ++ [i] else groupGet gs k'
  | [], k, ot, i, k' => by
    by_cases h : k' = k
    · subst h
      simp [insertIdx, groupGet_cons, groupGet_nil]
    · have h2 : ¬ k = k' := fun hh => h hh.symm
      simp [insertIdx, groupGet_cons, groupGet_nil, h, h2]
  | g :: gs, k, ot, i, k' => by
    by_cases h0 : g.key = k
    · rw [show insertIdx (g :: gs) k ot i =
          ⟨g.key, g.originalTopic, g.indices ++ [i]⟩ :: gs by simp [insertIdx, h0]]
      by_cases h : k' = k
      · subst h
        simp [groupGet_cons, h0]
      · have h' : ¬ g.key = k' := by rw [h0]; exact fun hh => h hh.symm
        simp [groupGet_cons, h, h']
    · rw [show insertIdx (g :: gs) k ot i = g :: insertIdx gs k ot i by
        simp [insertIdx, h0]]
      by_cases h : g.key = k'
      · have hk'k : ¬ k' = k := fun hh => h0 (h.trans hh)
        simp [groupGet_cons, h, hk'k]
      · simp [groupGet_cons, h, h0, groupGet_insertIdx gs k ot i k']

theorem keys_insertIdx :
    ∀ (gs : List TopicGroup) (k ot : String) (i : Nat),
      (insertIdx gs k ot i).map TopicGroup.key =
        if k ∈ gs.map TopicGroup.key then gs.map TopicGroup.key
        else gs.map TopicGroup.key ++ [k]
  | [], k, ot, i => by simp [insertIdx]
  | g :: gs, k, ot, i => by
    by_cases h0 : g.key = k
    · rw [show insertIdx (g :: gs) k ot i =
          ⟨g.key, g.originalTopic, g.indices ++ [i]⟩ :: gs by simp [insertIdx, h0]]
      simp [h0]
    · rw [show insertIdx (g :: gs) k ot i = g :: insertIdx gs k ot i by
        simp [insertIdx, h0]]
      simp only [List.map_cons]
      rw [keys_insertIdx gs k ot i]
      by_cases h : k ∈ gs.map TopicGroup.key
      · rw [if_pos h, if_pos (List.mem_cons.2 (Or.inr h))]
      · rw [if_neg h, if_neg (by
          intro hmem
          rcases List.mem_cons.1 hmem with hh | hh
          · exact h0 hh.symm
          · exact h hh), List.cons_append]

theorem indices_ne_nil_insertIdx :
    ∀ (gs : List TopicGroup) (k ot : String) (i : Nat),
      (∀ g ∈ gs, g.indices ≠ []) → ∀ g' ∈ insertIdx gs k ot i, g'.indices ≠ []
  | [], k, ot, i, _, g', h' => by
    simp only [insertIdx] at h'
    rcases List.mem_cons.1 h' with rfl | h''
    · simp
    · exact absurd h'' (by simp)
  | g :: gs, k, ot, i, hgs, g', h' => by
    by_cases h0 : g.key = k
    · rw [show insertIdx (g :: gs) k ot i =
          ⟨g.key, g.originalTopic, g.indices ++ [i]⟩ :: gs by simp [insertIdx, h0]] at h'
      rcases List.mem_cons.1 h' with rfl | h''
      · simp
      · exact hgs g' (List.mem_cons.2 (Or.inr h''))
    · rw [show insertIdx (g :: gs) k ot i = g :: insertIdx gs k ot i by
        simp [insertIdx, h0]] at h'
      rcases List.mem_cons.1 h' with rfl | h''
      · exact hgs g' (List.mem_cons_self _ _)
      · exact indices_ne_nil_insertIdx gs k ot i
          (fun g'' hg'' => hgs g'' (List.mem_cons.2 (Or.inr hg''))) g' h''

theorem groupGet_of_mem :
    ∀ (gs : List TopicGroup), ((gs.map TopicGroup.key).Nodup) →
      ∀ g ∈ gs, groupGet gs g.key = g.indices
  | [], _, g, hg => absurd hg (by simp)
  | g0 :: gs, hnd, g, hg => by
    simp only [List.map_cons, List.nodup_cons] at hnd
    rw [groupGet_cons]
    rcases List.mem_cons.1 hg with rfl | hg'
    · rw [if_pos rfl]
    · by_cases h : g0.key = g.key
      · exact absurd (h ▸ List.mem_map_of_mem TopicGroup.key hg') hnd.1
      · rw [if_neg h]
        exact groupGet_of_mem gs hnd.2 g hg'

theorem nodupKeys_insertIdx {gs : List TopicGroup} (k ot : String) (i : Nat)
    (h : (gs.map TopicGroup.key).Nodup) :
    ((insertIdx gs k ot i).map TopicGroup.key).Nodup := by
  rw [keys_insertIdx]
  by_cases hk : k ∈ gs.map TopicGroup.key
  · simpa [hk] using h
  · rw [if_neg hk]
    exact h.append (List.nodup_singleton k)
      (by intro x hx hxk; simp at hxk; subst hxk; exact hk hx)

theorem groupGet_eq_nil_of_not_mem {gs : List TopicGroup} {k : String}
    (h : k ∉ gs.map TopicGroup.key) : groupGet gs k = [] := by
  unfold groupGet
  rw [List.find?_eq_none.2 (by
    intro g hg
    simp only [beq_iff_eq]
    intro hk
    exact h (hk ▸ List.mem_map_of_mem TopicGroup.key hg))]

theorem groupAux_get :
    ∀ (rows : List ConversationRow) (i : Nat) (gs : List TopicGroup) (k : String),
      groupGet (groupAux rows i gs) k =
        groupGet gs k ++ (List.enumFrom i rows).filterMap
          (fun p => if keyTrimLower p.2.TOPIC = k then some p.1 else none)
  | [], i, gs, k => by simp [groupAux]
  | r :: rest, i, gs, k => by
    rw [show groupAux (r :: rest) i gs =
        groupAux rest (i + 1) (insertIdx gs (keyTrimLower r.TOPIC) (jsTrim r.TOPIC) i)
      from rfl]
    rw [groupAux_get rest (i + 1) _ k, groupGet_insertIdx, List.enumFrom_cons,
      List.filterMap_cons]
    by_cases h : keyTrimLower r.TOPIC = k
    · subst h
      rw [if_pos rfl, if_pos rfl]
      simp
    · rw [if_neg (fun hh : k = keyTrimLower r.TOPIC => h hh.symm), if_neg h]

theorem groupAux_nodupKeys :
    ∀ (rows : List ConversationRow) (i : Nat) (gs : List TopicGroup),
      (gs.map TopicGroup.key).Nodup →
      ((groupAux rows i gs).map TopicGroup.key).Nodup
  | [], _, _, h => h
  | r :: rest, i, gs, h =>
    groupAux_nodupKeys rest (i + 1) _ (nodupKeys_insertIdx _ _ i h)

theorem groupAux_ne_nil :
    ∀ (rows : List ConversationRow) (i : Nat) (gs : List TopicGroup),
      (∀ g ∈ gs, g.indices ≠ []) →
      ∀ g ∈ groupAux rows i gs, g.indices ≠ []
  | [], _, _, h => h
  | r :: rest, i, gs, h =>
    groupAux_ne_nil rest (i + 1) _ (indices_ne_nil_insertIdx gs _ _ i h)

theorem mem_enumFrom_of_lt {α : Type} [Inhabited α] :
    ∀ (l : List α) (i m : Nat), m < l.length →
      (i + m, l.getD m default) ∈ List.enumFrom i l
  | [], _, m, h => absurd h (by simp)
  | x :: xs, i, 0, _ => by simp [List.enumFrom_cons]
  | x :: xs, i, m + 1, h => by
    rw [List.enumFrom_cons]
    refine List.mem_cons.2 (Or.inr ?_)
    have := mem_enumFrom_of_lt xs (i + 1) m (by simpa using h)
    simpa [Nat.add_assoc, Nat.add_comm 1 m] using this

theorem mem_idxs_iff (rows : List ConversationRow) (k : String) (j : Nat) :
    (j ∈ (List.enumFrom 0 rows).filterMap
        (fun p => if keyTrimLower p.2.TOPIC = k then some p.1 else none)) ↔
      j < rows.length ∧ keyTrimLower ((rows.getD j default).TOPIC) = k := by
  constructor
  · intro h
    rcases List.mem_filterMap.1 h with ⟨⟨m, r⟩, hp, heq⟩
    by_cases hk : keyTrimLower r.TOPIC = k
    · rw [if_pos hk] at heq
      have hjm : m = j := by simpa using heq
      subst hjm
      have hmem := List.mem_enumFrom hp
      have hlt : m < rows.length := by simpa using hmem.2.1
      refine ⟨hlt, ?_⟩
      have hget : rows.getD m default = r := by
        rw [hmem.2.2, List.getD_eq_getElem?_getD,
          List.getElem?_eq_getElem (by simpa using hlt)]
        simp
      rw [hget]
      exact hk
    · rw [if_neg hk] at heq
      cases heq
  · rintro ⟨hj, hk⟩
    refine List.mem_filterMap.2 ⟨(j, rows.getD j default), ?_, by rw [if_pos hk]⟩
    simpa using mem_enumFrom_of_lt rows 0 j hj

/-- The grouping pass: keys are distinct, each group's indices are exactly
the in-range row positions whose normalised topic equals the group key, and
every row position's key is one of the group keys. -/
theorem groupByTopic_characterization (rows : List ConversationRow) :
    ((groupByTopic rows).map TopicGroup.key).Nodup ∧
    (∀ g ∈ groupByTopic rows, g.indices ≠ [] ∧
      ∀ j, j ∈ g.indices ↔
        (j < rows.length ∧ keyTrimLower ((rows.getD j default).TOPIC) = g.key)) ∧
    (∀ j, j < rows.length →
      keyTrimLower ((rows.getD j default).TOPIC) ∈
        (groupByTopic rows).map TopicGroup.key) := by
  have hnd : ((groupByTopic rows).map TopicGroup.key).Nodup :=
    groupAux_nodupKeys rows 0 [] (by simp)
  have hget : ∀ k, groupGet (groupByTopic rows) k =
      (List.enumFrom 0 rows).filterMap
        (fun p => if keyTrimLower p.2.TOPIC = k then some p.1 else none) := by
    intro k
    rw [groupByTopic, groupAux_get rows 0 [] k, groupGet_nil, List.nil_append]
  refine ⟨hnd, ?_, ?_⟩
  · intro g hg
    refine ⟨groupAux_ne_nil rows 0 [] (by simp) g hg, ?_⟩
    intro j
    rw [show g.indices = groupGet (groupByTopic rows) g.key from
      (groupGet_of_mem _ hnd g hg).symm, hget g.key]
    exact mem_idxs_iff rows g.key j
  · intro j hj
    by_contra hnot
    have : groupGet (groupByTopic rows) (keyTrimLower ((rows.getD j default).TOPIC)) = [] :=
      groupGet_eq_nil_of_not_mem hnot
    rw [hget] at this
    have hjmem := (mem_idxs_iff rows (keyTrimLower ((rows.getD j default).TOPIC)) j).2
      ⟨hj, rfl⟩
    rw [this] at hjmem
    exact absurd hjmem (by simp)

theorem countP_key_eq_one :
    ∀ (gs : List TopicGroup) (k0 : String), ((gs.map TopicGroup.key).Nodup) →
      k0 ∈ gs.map TopicGroup.key → gs.countP (fun g => g.key == k0) = 1
  | [], k0, _, hmem => absurd hmem (by simp)
  | g :: gs, k0, hnd, hmem => by
    simp only [List.map_cons, List.nodup_cons] at hnd
    rw [List.countP_cons]
    rcases List.mem_cons.1 hmem with heq | hmem'
    · rw [if_pos (by simpa using heq.symm)]
      rw [List.countP_eq_zero.2 (by
        intro g' hg'
        simp only [beq_iff_eq]
        intro hk
        exact hnd.1 (by
          rw [← heq, ← hk]
          exact List.mem_map_of_mem TopicGroup.key hg'))]
    · rw [if_neg (by
        simp only [beq_iff_eq]
        intro hk
        exact hnd.1 (hk ▸ hmem')), countP_key_eq_one gs k0 hnd.2 hmem']

theorem countP_add_countP_le_length {α : Type} (p q : α → Bool)
    (h : ∀ x, ¬(p x = true ∧ q x = true)) :
    ∀ l : List α, l.countP p + l.countP q ≤ l.length
  | [] => by simp
  | x :: l => by
    rw [List.countP_cons, List.countP_cons, List.length_cons]
    have := countP_add_countP_le_length p q h l
    rcases hp : p x with _ | _ <;> rcases hq : q x with _ | _ <;> simp_all <;> omega

/-- Per-group arithmetic facts about `summarizeGroup`. -/
theorem summarizeGroup_facts (rows : List ConversationRow) (g : TopicGroup)
    (hne : g.indices ≠ []) :
    0 < (summarizeGroup rows g).total ∧
    (summarizeGroup rows g).unresolved + (summarizeGroup rows g).user_drop_off ≤
      (summarizeGroup rows g).total ∧
    (summarizeGroup rows g).negative_sentiment ≤ (summarizeGroup rows g).total ∧
    (summarizeGroup rows g).failure_rate =
      mkRat ((summarizeGroup rows g).unresolved + (summarizeGroup rows g).user_drop_off)
        (summarizeGroup rows g).total ∧
    (summarizeGroup rows g).negative_rate =
      mkRat (summarizeGroup rows g).negative_sentiment (summarizeGroup rows g).total := by
  have htotal : (summarizeGroup rows g).total = g.indices.length := by
    simp [summarizeGroup]
  have hpos : 0 < (summarizeGroup rows g).total := by
    rw [htotal]
    exact List.length_pos.2 hne
  refine ⟨hpos, ?_, ?_, ?_, ?_⟩
  · simp only [summarizeGroup]
    exact countP_add_countP_le_length _ _ (by
      intro x ⟨h1, h2⟩
      simp only [beq_iff_eq] at h1 h2
      exact absurd (h1.symm.trans h2) (by decide)) _
  · simp only [summarizeGroup]
    exact List.countP_le_length _
  · have : (summarizeGroup rows g).failure_rate =
        if 0 < (g.indices.map (fun i => rows.getD i default)).length then
          mkRat ((summarizeGroup rows g).unresolved + (summarizeGroup rows g).user_drop_off)
            (g.indices.map (fun i => rows.getD i default)).length
        else 0 := by
      simp [summarizeGroup]
    rw [this, if_pos (by rw [List.length_map]; exact List.length_pos.2 hne)]
    have hlen : (List.map (fun i => rows.getD i default) g.indices).length =
        (summarizeGroup rows g).total := by simp [summarizeGroup]
    rw [hlen]
  · have : (summarizeGroup rows g).negative_rate =
        if 0 < (g.indices.map (fun i => rows.getD i default)).length then
          mkRat (summarizeGroup rows g).negative_sentiment
            (g.indices.map (fun i => rows.getD i default)).length
        else 0 := by
      simp [summarizeGroup]
    rw [this, if_pos (by rw [List.length_map]; exact List.length_pos.2 hne)]
    have hlen : (List.map (fun i => rows.getD i default) g.indices).length =
        (summarizeGroup rows g).total := by simp [summarizeGroup]
    rw [hlen]

/-- C2: the `row_indices` of the summaries returned by
`buildClusterSummaries` partition `[0, row_count)` — every in-range index
lies in exactly one summary, no summary mentions an out-of-range index, and
two indices share a summary exactly when their rows' topics agree after
trimming and lower-casing. -/
theorem buildClusterSummaries_partition (rows : List ConversationRow) :
    (∀ i, i < rows.length →
      (buildClusterSummaries rows).countP (fun c => decide (i ∈ c.row_indices)) = 1) ∧
    (∀ c ∈ buildClusterSummaries rows, ∀ i ∈ c.row_indices, i < rows.length) ∧
    (∀ i j, i < rows.length → j < rows.length →
      ((∃ c ∈ buildClusterSummaries rows, i ∈ c.row_indices ∧ j ∈ c.row_indices) ↔
        keyTrimLower ((rows.getD i default).TOPIC) =
          keyTrimLower ((rows.getD j default).TOPIC))) := by
  have hchar := groupByTopic_characterization rows
  have hperm : (buildClusterSummaries rows).Perm
      ((groupByTopic rows).map (summarizeGroup rows)) := jsSort_perm _ _
  have hri : ∀ g, (summarizeGroup rows g).row_indices = g.indices := fun g => by
    simp [summarizeGroup]
  refine ⟨?_, ?_, ?_⟩
  · intro i hi
    rw [hperm.countP_eq, List.countP_map,
      List.countP_congr (q := fun g => g.key == keyTrimLower ((rows.getD i default).TOPIC))
        (by
          intro g hg
          simp only [Function.comp, decide_eq_true_eq, beq_iff_eq, hri g]
          rw [((hchar.2.1 g hg).2 i)]
          constructor
          · rintro ⟨_, hk⟩
            exact hk.symm
          · intro hk
            exact ⟨hi, hk.symm⟩)]
    exact countP_key_eq_one _ _ hchar.1 (hchar.2.2 i hi)
  · intro c hc i hic
    rcases List.mem_map.1 (hperm.mem_iff.1 hc) with ⟨g, hg, rfl⟩
    rw [hri g] at hic
    exact (((hchar.2.1 g hg).2 i).1 hic).1
  · intro i j hi hj
    constructor
    · rintro ⟨c, hc, hci, hcj⟩
      rcases List.mem_map.1 (hperm.mem_iff.1 hc) with ⟨g, hg, rfl⟩
      rw [hri g] at hci hcj
      have h1 := ((hchar.2.1 g hg).2 i).1 hci
      have h2 := ((hchar.2.1 g hg).2 j).1 hcj
      rw [h1.2, h2.2]
    · intro heq
      rcases List.mem_map.1 (hchar.2.2 i hi) with ⟨g, hg, hkey⟩
      refine ⟨summarizeGroup rows g,
        hperm.mem_iff.2 (List.mem_map_of_mem _ hg), ?_, ?_⟩
      · rw [hri g]
        exact ((hchar.2.1 g hg).2 i).2 ⟨hi, hkey.symm⟩
      · rw [hri g]
        refine ((hchar.2.1 g hg).2 j).2 ⟨hj, ?_⟩
        rw [← heq]
        exact hkey.symm

/-- Witness for C2: on the four-row fixture every index lies in exactly one
cluster, and rows 1 and 3 (same topic up to trim/lower-case) share one while
rows 0 and 1 do not. -/
theorem buildClusterSummaries_partition_witness :
    ((0 : Nat) < wRows.length ∧ (1 : Nat) < wRows.length ∧ (3 : Nat) < wRows.length) ∧
    (buildClusterSummaries wRows).countP (fun c => decide (0 ∈ c.row_indices)) = 1 ∧
    ((∃ c ∈ buildClusterSummaries wRows, 1 ∈ c.row_indices ∧ 3 ∈ c.row_indices) ↔
      keyTrimLower ((wRows.getD 1 default).TOPIC) =
        keyTrimLower ((wRows.getD 3 default).TOPIC)) ∧
    keyTrimLower ((wRows.getD 1 default).TOPIC) =
      keyTrimLower ((wRows.getD 3 default).TOPIC) :=
  ⟨⟨by decide, by decide, by decide⟩,
    (buildClusterSummaries_partition wRows).1 0 (by decide),
    (buildClusterSummaries_partition wRows).2.2 1 3 (by decide) (by decide),
    by decide⟩

/-- C6: every returned cluster summary is non-empty with
`failure_rate = (unresolved + user_drop_off) / total` and
`negative_rate = negative_sentiment / total`, both rates lie in `[0, 1]`,
and the summaries are sorted non-increasing by failure rate. -/
theorem buildClusterSummaries_rates_sorted (rows : List ConversationRow) :
    (∀ c ∈ buildClusterSummaries rows,
      0 < c.total ∧
      c.failure_rate = ((c.unresolved : ℚ) + (c.user_drop_off : ℚ)) / (c.total : ℚ) ∧
      c.negative_rate = (c.negative_sentiment : ℚ) / (c.total : ℚ) ∧
      0 ≤ c.failure_rate ∧ c.failure_rate ≤ 1 ∧
      0 ≤ c.negative_rate ∧ c.negative_rate ≤ 1) ∧
    (buildClusterSummaries rows).Pairwise (fun a b => b.failure_rate ≤ a.failure_rate) := by
  have hchar := groupByTopic_characterization rows
  have hperm : (buildClusterSummaries rows).Perm
      ((groupByTopic rows).map (summarizeGroup rows)) := jsSort_perm _ _
  constructor
  · intro c hc
    rcases List.mem_map.1 (hperm.mem_iff.1 hc) with ⟨g, hg, rfl⟩
    have hfacts := summarizeGroup_facts rows g ((hchar.2.1 g hg).1)
    have hpos : (0 : ℚ) < ((summarizeGroup rows g).total : ℚ) := by
      exact_mod_cast hfacts.1
    have hfr : (summarizeGroup rows g).failure_rate =
        (((summarizeGroup rows g).unresolved : ℚ) +
          ((summarizeGroup rows g).user_drop_off : ℚ)) /
          ((summarizeGroup rows g).total : ℚ) := by
      rw [hfacts.2.2.2.1, Rat.mkRat_eq_div]
      push_cast
      ring
    have hnr : (summarizeGroup rows g).negative_rate =
        (((summarizeGroup rows g).negative_sentiment : ℚ)) /
          ((summarizeGroup rows g).total : ℚ) := by
      rw [hfacts.2.2.2.2, Rat.mkRat_eq_div]
      push_cast
      ring
    refine ⟨hfacts.1, hfr, hnr, ?_, ?_, ?_, ?_⟩
    · rw [hfr]
      positivity
    · rw [hfr, div_le_one hpos]
      exact_mod_cast hfacts.2.1
    · rw [hnr]
      positivity
    · rw [hnr, div_le_one hpos]
      exact_mod_cast hfacts.2.2.1
  · have := @jsSort_pairwise _
      (fun a b : ClusterSummary => decide (b.failure_rate ≤ a.failure_rate))
      (fun a b c hab hbc => by
        simp only [decide_eq_true_eq] at *
        exact le_trans hbc hab)
      (fun a b => by
        simp only [decide_eq_true_eq]
        exact le_total b.failure_rate a.failure_rate)
      ((groupByTopic rows).map (summarizeGroup rows))
    exact this.imp (fun h => by simpa using h)

/-- Witness for C6: on the four-row fixture the `login issue` cluster ranks
first with failure rate 1, the `refund` cluster second with rate 1/2, and
the stated rate equations hold for the first summary. -/
theorem buildClusterSummaries_rates_sorted_witness :
    ((buildClusterSummaries wRows).map (·.failure_rate) = [1, mkRat 1 2]) ∧
    ((buildClusterSummaries wRows).getD 0 default ∈ buildClusterSummaries wRows ∧
      ((buildClusterSummaries wRows).getD 0 default).topic = "Login Issue") ∧
    ((buildClusterSummaries wRows).getD 0 default).failure_rate =
      ((((buildClusterSummaries wRows).getD 0 default).unresolved : ℚ) +
        (((buildClusterSummaries wRows).getD 0 default).user_drop_off : ℚ)) /
        (((buildClusterSummaries wRows).getD 0 default).total : ℚ) :=
  ⟨by decide, ⟨by decide, by decide⟩,
    ((buildClusterSummaries_rates_sorted wRows).1 _ (by decide)).2.1⟩

/-! ### C1: detail overrides cluster -/

theorem getD_map_of_lt {α β : Type} (f : α → β) (l : List α) (i : Nat)
    (h : i < l.length) (da : α) (db : β) :
    (l.map f).getD i db = f (l.getD i da) := by
  rw [List.getD_eq_getElem?_getD, List.getElem?_map,
    List.getElem?_eq_getElem h, List.getD_eq_getElem?_getD,
    List.getElem?_eq_getElem h]
  rfl

theorem length_assignBucketsByTopic (rows : List ConversationRow)
    (tb tl : String → Option String) :
    (assignBucketsByTopic rows tb tl).length = rows.length :=
  List.length_map rows _

theorem processBucket_snd (recs : List BucketRecommendation)
    (rows : List ConversationRow) (b lbl : String) :
    (processBucket recs rows b lbl).2 =
      recs.foldl (fun rs rec => applyRec rs rec b lbl) rows := rfl

theorem processBucket_snd_length (recs : List BucketRecommendation)
    (rows : List ConversationRow) (b lbl : String) :
    (processBucket recs rows b lbl).2.length = rows.length :=
  (foldl_applyRec_invariant b lbl 0 default recs rows).1

theorem markBL_fields (b lbl : String) (r : ConversationRow) :
    (markBL b lbl r).ISSUE_CATEGORY = r.ISSUE_CATEGORY ∧
    (markBL b lbl r).TOPIC = r.TOPIC ∧
    (markBL b lbl r).BUCKET = some b ∧ (markBL b lbl r).BUCKET_LABEL = some lbl :=
  ⟨rfl, rfl, rfl, rfl⟩

theorem stampIssueCategories_getD (rows : List ConversationRow)
    (tic : String → Option String) (b1 b2 b3 : List BucketRecommendation)
    {i : Nat} (h : i < rows.length) :
    (stampIssueCategories rows tic b1 b2 b3).getD i default =
      stampRow tic b1 b2 b3 (rows.getD i default) :=
  getD_map_of_lt _ rows i h default default

theorem stampRow_preserves_bucket (tic : String → Option String)
    (b1 b2 b3 : List BucketRecommendation) (row : ConversationRow) :
    (stampRow tic b1 b2 b3 row).BUCKET = row.BUCKET ∧
    (stampRow tic b1 b2 b3 row).BUCKET_LABEL = row.BUCKET_LABEL := by
  unfold stampRow
  constructor
  all_goals repeat' split
  all_goals rfl

theorem stampIssueCategories_preserves_bucket (rows : List ConversationRow)
    (tic : String → Option String) (b1 b2 b3 : List BucketRecommendation)
    {i : Nat} (h : i < rows.length) :
    ((stampIssueCategories rows tic b1 b2 b3).getD i default).BUCKET =
      (rows.getD i default).BUCKET ∧
    ((stampIssueCategories rows tic b1 b2 b3).getD i default).BUCKET_LABEL =
      (rows.getD i default).BUCKET_LABEL := by
  rw [stampIssueCategories_getD rows tic b1 b2 b3 h]
  exact stampRow_preserves_bucket tic b1 b2 b3 _

/-- C1: in the staged pipeline, a row index claimed by a detail (Stage-B)
recommendation for bucket 1 and unclaimed by the later-processed detail
buckets 2 and 3 ends the run with `BUCKET = "1"` and the bucket-1 label,
regardless of what the Stage-A topic map assigned to its topic (e.g. bucket
"2") and regardless of any strategic index claims — the detail override
passes run last. -/
theorem pipelineCore_detail_override (csvData : List ConversationRow)
    (sp : StrategicParsed) (dp : DetailParsed) (idx : Nat)
    (hn : idx < csvData.length)
    (h1 : claimedBy dp.bucket1 csvData.length idx = true)
    (h2 : claimedBy dp.bucket2 csvData.length idx = false)
    (h3 : claimedBy dp.bucket3 csvData.length idx = false) :
    ((pipelineCore csvData sp dp).categorizedRows.getD idx default).BUCKET = some "1" ∧
    ((pipelineCore csvData sp dp).categorizedRows.getD idx default).BUCKET_LABEL =
      some "Service Expansion (New Agent)" := by
  have maps := buildMaps sp.topic_assignments
  set rows0 := assignBucketsByTopic csvData (buildMaps sp.topic_assignments).1
    (buildMaps sp.topic_assignments).2.1 with hrows0
  set r1 := (processBucket sp.bucket1 rows0 "1" "Service Expansion (New Agent)").2 with hr1
  set r2 := (processBucket sp.bucket2 r1 "2" "System Optimization (Logic Update)").2 with hr2
  set r3 := (processBucket sp.bucket3 r2 "3" "Information Gaps (KB Update)").2 with hr3
  set r4 := (processBucket dp.bucket1 r3 "1" "Service Expansion (New Agent)").2 with hr4
  set r5 := (processBucket dp.bucket2 r4 "2" "System Optimization (Logic Update)").2 with hr5
  set r6 := (processBucket dp.bucket3 r5 "3" "Information Gaps (KB Update)").2 with hr6
  have hl0 : rows0.length = csvData.length := length_assignBucketsByTopic _ _ _
  have hl1 : r1.length = csvData.length := by
    rw [hr1, processBucket_snd_length, hl0]
  have hl2 : r2.length = csvData.length := by
    rw [hr2, processBucket_snd_length, hl1]
  have hl3 : r3.length = csvData.length := by
    rw [hr3, processBucket_snd_length, hl2]
  have hl4 : r4.length = csvData.length := by
    rw [hr4, processBucket_snd_length, hl3]
  have hl5 : r5.length = csvData.length := by
    rw [hr5, processBucket_snd_length, hl4]
  have hl6 : r6.length = csvData.length := by
    rw [hr6, processBucket_snd_length, hl5]
  have h4 : r4.getD idx default =
      markBL "1" "Service Expansion (New Agent)" (r3.getD idx default) := by
    rw [hr4, processBucket_snd]
    exact (foldl_applyRec_invariant _ _ idx default dp.bucket1 r3).2.2.1
      (by rw [hl3]; exact hn) (by rw [hl3]; exact h1)
  have h5 : r5.getD idx default = r4.getD idx default := by
    rw [hr5, processBucket_snd]
    exact (foldl_applyRec_invariant _ _ idx default dp.bucket2 r4).2.1
      (by rw [hl4]; exact h2)
  have h6 : r6.getD idx default = r4.getD idx default := by
    rw [hr6, processBucket_snd]
    rw [(foldl_applyRec_invariant _ _ idx default dp.bucket3 r5).2.1
      (by rw [hl5]; exact h3)]
    exact h5
  have hstamp := stampIssueCategories_preserves_bucket r6
    (pipelineCore csvData sp dp).issueMap (pipelineCore csvData sp dp).bucket1
    (pipelineCore csvData sp dp).bucket2 (pipelineCore csvData sp dp).bucket3
    (i := idx) (by rw [hl6]; exact hn)
  have hrows : (pipelineCore csvData sp dp).categorizedRows =
      stampIssueCategories r6 (pipelineCore csvData sp dp).issueMap
        (pipelineCore csvData sp dp).bucket1 (pipelineCore csvData sp dp).bucket2
        (pipelineCore csvData sp dp).bucket3 := rfl
  rw [hrows]
  rw [hstamp.1, hstamp.2, h6, h4]
  exact ⟨rfl, rfl⟩

/-- Witness for C1: the `Login Issue` topic is mapped to bucket `"2"` by
Stage A, but row 1 is explicitly claimed by a Stage-B bucket-1
recommendation and ends the pipeline in bucket `"1"`. -/
theorem pipelineCore_detail_override_witness :
    ((buildMaps wStrategicNoRecs.topic_assignments).1
        (keyTrimLower ((wRows.getD 1 default).TOPIC)) = some "2" ∧
      1 < wRows.length ∧
      claimedBy wDetailB1.bucket1 wRows.length 1 = true ∧
      claimedBy wDetailB1.bucket2 wRows.length 1 = false ∧
      claimedBy wDetailB1.bucket3 wRows.length 1 = false) ∧
    ((pipelineCore wRows wStrategicNoRecs wDetailB1).categorizedRows.getD 1
        default).BUCKET = some "1" ∧
    ((pipelineCore wRows wStrategicNoRecs wDetailB1).categorizedRows.getD 1
        default).BUCKET_LABEL = some "Service Expansion (New Agent)" :=
  ⟨⟨by decide, by decide, by decide, by decide, by decide⟩,
    pipelineCore_detail_override wRows wStrategicNoRecs wDetailB1 1
      (by decide) (by decide) (by decide) (by decide)⟩

/-! ### C10: issue-category stamping -/

theorem getD_default_of_ge {α : Type} [Inhabited α] (l : List α) {i : Nat}
    (h : ¬ i < l.length) : l.getD i default = default := by
  rw [List.getD_eq_getElem?_getD, List.getElem?_eq_none (by omega)]
  rfl

theorem assignBucketsByTopic_IC (rows : List ConversationRow)
    (tb tl : String → Option String) (i : Nat)
    (hin : ∀ r ∈ rows, r.ISSUE_CATEGORY = none) :
    ((assignBucketsByTopic rows tb tl).getD i default).ISSUE_CATEGORY = none := by
  by_cases h : i < rows.length
  · rw [show (assignBucketsByTopic rows tb tl).getD i default =
        { rows.getD i default with
            BUCKET := some ((tb (keyTrimLower (rows.getD i default).TOPIC)).getD "0")
            BUCKET_LABEL :=
              some ((tl (keyTrimLower (rows.getD i default).TOPIC)).getD
                "Resolved / Out of Scope")
            APPROVAL_STATUS := "Pending" } from
      getD_map_of_lt _ rows i h default default]
    have hmem : rows.getD i default ∈ rows := by
      rw [List.getD_eq_getElem?_getD, List.getElem?_eq_getElem h]
      exact List.getElem_mem h
    show (rows.getD i default).ISSUE_CATEGORY = none
    exact hin _ hmem
  · rw [getD_default_of_ge _ (by rw [length_assignBucketsByTopic]; exact h)]
    rfl

theorem processBucket_preserves_IC (recs : List BucketRecommendation)
    (rows : List ConversationRow) (b lbl : String) (i : Nat) :
    ((processBucket recs rows b lbl).2.getD i default).ISSUE_CATEGORY =
      (rows.getD i default).ISSUE_CATEGORY := by
  rw [processBucket_snd]
  rcases (foldl_applyRec_invariant b lbl i default recs rows).2.2.2 _ rfl with h | h
  · rw [h]
  · rw [h]
    rfl

/-- C10 (amended): after the staged pipeline, a bucket-`"0"` row never
carries an `ISSUE_CATEGORY` (given, as in a real run, that the input rows
carry none), and a row whose bucket is a non-empty, non-`"0"` id always
carries one *provided* the merged recommendation list the stamping loop
selects for that bucket id is non-empty (id `"1"` selects bucket 1, `"2"`
bucket 2, anything else bucket 3).  With an empty selected list the row is
left without a category — the unconditional claim fails (see the
counterexample). -/
theorem pipelineCore_issue_category (csvData : List ConversationRow)
    (sp : StrategicParsed) (dp : DetailParsed)
    (hin : ∀ r ∈ csvData, r.ISSUE_CATEGORY = none) :
    ∀ i, i < csvData.length →
      ((((pipelineCore csvData sp dp).categorizedRows.getD i default).BUCKET = some "0" →
        ((pipelineCore csvData sp dp).categorizedRows.getD i default).ISSUE_CATEGORY =
          none) ∧
      (∀ b, ((pipelineCore csvData sp dp).categorizedRows.getD i default).BUCKET = some b →
        b ≠ "0" → b ≠ "" →
        (if b = "1" then (pipelineCore csvData sp dp).bucket1
         else if b = "2" then (pipelineCore csvData sp dp).bucket2
         else (pipelineCore csvData sp dp).bucket3) ≠ [] →
        (((pipelineCore csvData sp dp).categorizedRows.getD i
            default).ISSUE_CATEGORY).isSome = true)) := by
  intro i hi
  set rows0 := assignBucketsByTopic csvData (buildMaps sp.topic_assignments).1
    (buildMaps sp.topic_assignments).2.1 with hrows0
  set r1 := (processBucket sp.bucket1 rows0 "1" "Service Expansion (New Agent)").2 with hr1
  set r2 := (processBucket sp.bucket2 r1 "2" "System Optimization (Logic Update)").2 with hr2
  set r3 := (processBucket sp.bucket3 r2 "3" "Information Gaps (KB Update)").2 with hr3
  set r4 := (processBucket dp.bucket1 r3 "1" "Service Expansion (New Agent)").2 with hr4
  set r5 := (processBucket dp.bucket2 r4 "2" "System Optimization (Logic Update)").2 with hr5
  set r6 := (processBucket dp.bucket3 r5 "3" "Information Gaps (KB Update)").2 with hr6
  have hl0 : rows0.length = csvData.length := length_assignBucketsByTopic _ _ _
  have hl6 : r6.length = csvData.length := by
    rw [hr6, processBucket_snd_length, hr5, processBucket_snd_length,
      hr4, processBucket_snd_length, hr3, processBucket_snd_length,
      hr2, processBucket_snd_length, hr1, processBucket_snd_length, hl0]
  have hIC6 : (r6.getD i default).ISSUE_CATEGORY = none := by
    rw [hr6, processBucket_preserves_IC, hr5, processBucket_preserves_IC,
      hr4, processBucket_preserves_IC, hr3, processBucket_preserves_IC,
      hr2, processBucket_preserves_IC, hr1, processBucket_preserves_IC,
      hrows0]
    exact assignBucketsByTopic_IC csvData _ _ i hin
  have hrows : (pipelineCore csvData sp dp).categorizedRows =
      stampIssueCategories r6 (pipelineCore csvData sp dp).issueMap
        (pipelineCore csvData sp dp).bucket1 (pipelineCore csvData sp dp).bucket2
        (pipelineCore csvData sp dp).bucket3 := rfl
  have hget : (pipelineCore csvData sp dp).categorizedRows.getD i default =
      stampRow (pipelineCore csvData sp dp).issueMap
        (pipelineCore csvData sp dp).bucket1 (pipelineCore csvData sp dp).bucket2
        (pipelineCore csvData sp dp).bucket3 (r6.getD i default) := by
    rw [hrows]
    exact stampIssueCategories_getD r6 _ _ _ _ (by rw [hl6]; exact hi)
  constructor
  · intro hb0
    have hb6 : (r6.getD i default).BUCKET = some "0" := by
      rw [← (stampRow_preserves_bucket (pipelineCore csvData sp dp).issueMap
        (pipelineCore csvData sp dp).bucket1 (pipelineCore csvData sp dp).bucket2
        (pipelineCore csvData sp dp).bucket3 (r6.getD i default)).1, ← hget]
      exact hb0
    rw [hget]
    unfold stampRow
    rw [hb6, if_neg (by decide)]
    exact hIC6
  · intro b hb hb0 hbne hsel
    have hb6 : (r6.getD i default).BUCKET = some b := by
      rw [← (stampRow_preserves_bucket (pipelineCore csvData sp dp).issueMap
        (pipelineCore csvData sp dp).bucket1 (pipelineCore csvData sp dp).bucket2
        (pipelineCore csvData sp dp).bucket3 (r6.getD i default)).1, ← hget]
      exact hb
    rw [hget]
    unfold stampRow
    rw [hb6]
    rw [if_pos (by
      simp only [optTruthy, Bool.and_eq_true, bne_iff_ne, ne_eq, Option.some.injEq]
      exact ⟨by simpa using hbne, hb0⟩)]
    by_cases htic : optTruthy ((pipelineCore csvData sp dp).issueMap
        (keyLowerTrim (r6.getD i default).TOPIC)) = true
    · rw [if_pos htic]
      rcases hv : (pipelineCore csvData sp dp).issueMap
          (keyLowerTrim (r6.getD i default).TOPIC) with _ | v
      · rw [hv] at htic
        exact absurd htic (by simp [optTruthy])
      · simp [hv]
    · rw [if_neg htic]
      have hsel' : (if ((some b : Option String) == some "1") then
            (pipelineCore csvData sp dp).bucket1
          else if ((some b : Option String) == some "2") then
            (pipelineCore csvData sp dp).bucket2
          else (pipelineCore csvData sp dp).bucket3) =
          (if b = "1" then (pipelineCore csvData sp dp).bucket1
           else if b = "2" then (pipelineCore csvData sp dp).bucket2
           else (pipelineCore csvData sp dp).bucket3) := by
        by_cases hb1 : b = "1"
        · simp [hb1]
        · by_cases hb2 : b = "2" <;> simp [hb1, hb2]
      rw [hsel']
      rcases hlist : (if b = "1" then (pipelineCore csvData sp dp).bucket1
          else if b = "2" then (pipelineCore csvData sp dp).bucket2
          else (pipelineCore csvData sp dp).bucket3) with _ | ⟨r, rest⟩
      · exact absurd hlist hsel
      · rfl

/-- Counterexample to C10 as stated: a cluster topic mapped to bucket `"2"`
with *no* recommendation objects at all puts its row in bucket `"2"` but the
row receives no `ISSUE_CATEGORY` — bucketed rows are not always stamped. -/
theorem pipelineCore_issue_category_counterexample :
    wRowNeg.ISSUE_CATEGORY = none ∧
    ((pipelineCore [wRowNeg] wStrategicNoRecs {}).categorizedRows.map
      (fun r => (r.BUCKET, r.ISSUE_CATEGORY))) = [(some "2", none)] ∧
    (pipelineCore [wRowNeg] wStrategicNoRecs {}).bucket2 = [] := by
  refine ⟨rfl, by decide, by decide⟩

/-- Witness for C10 (amended): with one bucket-1 recommendation present the
bucket-1 row is stamped, and in the no-recommendation run the bucket-0 rows
carry nothing. -/
theorem pipelineCore_issue_category_witness :
    ((∀ r ∈ wRows, r.ISSUE_CATEGORY = none) ∧ (1 : Nat) < wRows.length ∧
      ((pipelineCore wRows wStrategicNoRecs wDetailB1).categorizedRows.getD 1
        default).BUCKET = some "1" ∧ ("1" : String) ≠ "0" ∧ ("1" : String) ≠ "" ∧
      (pipelineCore wRows wStrategicNoRecs wDetailB1).bucket1 ≠ []) ∧
    (((pipelineCore wRows wStrategicNoRecs wDetailB1).categorizedRows.getD 1
      default).ISSUE_CATEGORY).isSome = true ∧
    (((pipelineCore wRows wStrategicNoRecs wDetailB1).categorizedRows.getD 0
      default).BUCKET = some "0" →
      ((pipelineCore wRows wStrategicNoRecs wDetailB1).categorizedRows.getD 0
        default).ISSUE_CATEGORY = none) :=
  ⟨⟨by decide, by decide, by decide, by decide, by decide, by decide⟩,
    ((pipelineCore_issue_category wRows wStrategicNoRecs wDetailB1 (by decide) 1
      (by decide)).2 "1" (by decide) (by decide) (by decide) (by decide)),
    (pipelineCore_issue_category wRows wStrategicNoRecs wDetailB1 (by decide) 0
      (by decide)).1⟩

/-! ### C8: per-stage error absorption -/

/-- C8 (amended): each stage call of `analyzeWithBatching` sits in its own
`try/catch`, which absorbs **every** error the provider call throws — fatal
(non-retryable) errors rethrown immediately by `withRetry` just like
transient ones after retry exhaustion.  A failed stage contributes raw `""`
(so its structured output degrades to the empty defaults), pushes
`"Stage 2 (Strategic) API Error: ..."` / `"Stage 3 (Detail) API Error: ..."`
onto the log, marks the stage unsuccessful, and the run still returns the
same best-effort `AnalysisResult` as an empty-response run.  No provider
error ever aborts the run; the outer catch only rethrows errors raised by
the pipeline code itself, outside the stage try/catch blocks. -/
theorem analyzeWithBatching_absorbs_stage_errors
    (csvData : List ConversationRow) (e : String) (sb : Except String String)
    (dA : String → Option StrategicParsed) (dB : String → Option DetailParsed) :
    ((analyzeWithBatchingM csvData (Except.error e) sb dA dB).1 =
        (analyzeWithBatchingM csvData (Except.ok "") sb dA dB).1 ∧
      ("Stage 2 (Strategic) API Error: " ++ e) ∈
        (analyzeWithBatchingM csvData (Except.error e) sb dA dB).2.errors ∧
      (analyzeWithBatchingM csvData (Except.error e) sb dA dB).2.strategicSuccess =
        false) ∧
    ∀ sa : Except String String,
      (analyzeWithBatchingM csvData sa (Except.error e) dA dB).1 =
          (analyzeWithBatchingM csvData sa (Except.ok "") dA dB).1 ∧
        ("Stage 3 (Detail) API Error: " ++ e) ∈
          (analyzeWithBatchingM csvData sa (Except.error e) dA dB).2.errors ∧
        (analyzeWithBatchingM csvData sa (Except.error e) dA dB).2.detailSuccess =
          false := by
  refine ⟨⟨rfl, ?_, rfl⟩, fun sa => ⟨rfl, ?_, rfl⟩⟩
  · exact List.mem_append_left _ (List.mem_cons_self _ _)
  · exact List.mem_append_right _ (List.mem_cons_self _ _)

/-- Counterexample to C8 as stated: an auth-style error (`status` 401, no
transient marker — exactly the "fatal provider error" class, which
`isTransientError` classifies as non-retryable) thrown by both stage calls
does **not** propagate or abort: the run completes and returns a result
covering every input row, with both errors merely logged. -/
theorem analyzeWithBatching_fatal_absorbed_counterexample :
    isTransientError { status := some 401, message := "Invalid API key" } = false ∧
    (analyzeWithBatchingM [wRowNeg] (Except.error "Invalid API key")
        (Except.error "Invalid API key") (fun _ => none) (fun _ => none)).2 =
      { errors := ["Stage 2 (Strategic) API Error: Invalid API key",
                   "Stage 3 (Detail) API Error: Invalid API key"]
        strategicSuccess := false, detailSuccess := false } ∧
    (analyzeWithBatchingM [wRowNeg] (Except.error "Invalid API key")
        (Except.error "Invalid API key") (fun _ => none)
        (fun _ => none)).1.totalRowsProcessed = 1 ∧
    ((analyzeWithBatchingM [wRowNeg] (Except.error "Invalid API key")
        (Except.error "Invalid API key") (fun _ => none)
        (fun _ => none)).1.categorizedRows.map (fun r => r.BUCKET)) = [some "0"] := by
  refine ⟨by decide, rfl, rfl, by decide⟩

end BotAnalyzer
